import Mathlib

/-!
Verification development for the chisage-ha-gen configuration generator
(src/chisage-generate.py).  The program is embedded shallowly:

* Python strings are Lean `String`s; character-level operations are
  carried out on `String.data` (a `List Char`), which matches Python's
  per-character semantics for the ASCII operations the program uses.
* Python ints are `Int` (octets and indices that are known non-negative
  are `Nat`).
* Python floats appear only as the literal scale constants `0.1`, `0.01`
  and `1.0`; they are embedded as exact decimal numbers (`Dec` below),
  mirroring the decimal text `repr` that PyYAML writes and reads back.
* YAML documents loaded by `yaml.safe_load` are embedded as the inductive
  `Yaml` value type; the subset of PyYAML text emission exercised by this
  program (block lists of flat mappings with scalar values) is embedded
  explicitly so that the text-level claims (quoting of the `!include`
  marker, the regex post-processing, round-tripping) can be stated.
* The file system is a state record `FS` (registry file plus the files
  under `chisage/`); the `__main__` entry point is the state-passing
  function `run`.
-/

namespace Chisage

/-! ## Character-list string helpers (Python `str` operations) -/

/-- Decimal digit characters of a natural number, most significant first.
Fuel-based so that it reduces definitionally; `natRepr` supplies fuel `n+1`,
which the lemmas below show is always sufficient. -/
def natReprAux : Nat → Nat → List Char
  | 0, _ => []
  | f + 1, n => if n < 10 then [Nat.digitChar n] else natReprAux f (n / 10) ++ [Nat.digitChar (n % 10)]

/-- Decimal representation of a natural number (Python `str(n)` for `n ≥ 0`). -/
def natRepr (n : Nat) : String := ⟨natReprAux (n + 1) n⟩

/-- Decimal representation of an integer (Python `str(n)`). -/
def intRepr (n : Int) : String :=
  if n < 0 then ⟨('-' :: natReprAux (n.natAbs + 1) n.natAbs)⟩ else natRepr n.natAbs

/-- Value of a list of decimal digit characters (leading zeros allowed). -/
def parseNatDigits (cs : List Char) : Nat :=
  cs.foldl (fun a c => 10 * a + (c.toNat - 48)) 0

/-- Split a character list at every occurrence of `sep` (Python `str.split`). -/
def splitOnChar (sep : Char) : List Char → List (List Char)
  | [] => [[]]
  | c :: rest =>
    match splitOnChar sep rest with
    | [] => [[]]
    | g :: gs => if c = sep then [] :: g :: gs else (c :: g) :: gs

/-- Python `s.lower()` restricted to ASCII, composed with the two
single-character `str.replace` calls used to build file slugs
(`.replace(' ', '_').replace('-', '_')`). -/
def slugChar (c : Char) : Char :=
  let lc := c.toLower
  if lc = ' ' then '_' else if lc = '-' then '_' else lc

/-- `self.name.lower().replace(' ', '_').replace('-', '_')` from
`ModbusDevice.make_config`. -/
def slugify (s : String) : String := ⟨s.data.map slugChar⟩

/-- `device_instance_name.lower().replace(' ', '_')` from the card branch of
`__main__` (note: no hyphen replacement there). -/
def cardSlug (s : String) : String :=
  ⟨s.data.map (fun c => let lc := c.toLower; if lc = ' ' then '_' else lc)⟩

/-! ## YAML values

The result type of `yaml.safe_load` for the documents this program reads:
scalars, block sequences, and mappings with string keys.  Mappings are
association lists in document order (PyYAML returns `dict`s; the entries the
program writes have distinct keys). -/

/-- Exact decimal number `m / 10 ^ e`, standing for the Python floats the
program uses (`0.1`, `0.01`, `1.0`); `e` is the number of digits after the
decimal point in the float's `repr`. -/
structure Dec where
  m : Nat
  e : Nat
  deriving Repr, DecidableEq

inductive Yaml where
  | null
  | bool (b : Bool)
  | int (n : Int)
  | float (d : Dec)
  | str (s : String)
  | list (xs : List Yaml)
  | map (kvs : List (String × Yaml))

/-- Python `dict.get`: first value bound to key `k`. -/
def lookupKvs (k : String) : List (String × Yaml) → Option Yaml
  | [] => none
  | (k', v) :: rest => if k' = k then some v else lookupKvs k rest

/-! ## Register and device model (`ModbusRegister`, `ModbusDevice`) -/

structure ModbusRegister where
  name : String
  slave : Int
  address : Int
  data_type : String
  scale : Option Dec := none
  unit_of_measurement : Option String := none
  scan_interval : Option Int := none
  state_class : Option String := none

/-- `ModbusRegister.to_dict`: mandatory fields always present, each optional
field added only when it is not `None`, in source order. -/
def ModbusRegister.toDict (r : ModbusRegister) : List (String × Yaml) :=
  [("name", .str r.name), ("slave", .int r.slave),
   ("address", .int r.address), ("data_type", .str r.data_type)]
  ++ (match r.scale with | some d => [("scale", Yaml.float d)] | none => [])
  ++ (match r.unit_of_measurement with | some u => [("unit_of_measurement", Yaml.str u)] | none => [])
  ++ (match r.scan_interval with | some i => [("scan_interval", Yaml.int i)] | none => [])
  ++ (match r.state_class with | some c => [("state_class", Yaml.str c)] | none => [])

structure ModbusDevice where
  name : String
  slave : Int
  host : String
  sensors : List ModbusRegister

/-- `ModbusDevice.__init__`: back-fills the default scan interval onto every
sensor that lacks one. -/
def mkModbusDevice (name : String) (slave : Int) (host : String)
    (defaultScan : Option Int) (sensors : List ModbusRegister) : ModbusDevice :=
  { name := name, slave := slave, host := host,
    sensors :=
      match defaultScan with
      | some d => sensors.map (fun s =>
          if s.scan_interval = none then { s with scan_interval := some d } else s)
      | none => sensors }

/-- The static register table of `ChisageInverter.__init__`, each register
name qualified with the device name. -/
def chisageTable (name : String) (slave : Int) : List ModbusRegister :=
  [{ name := name ++ " Inverter Voltage A", slave := slave, address := 26, data_type := "uint16", scale := some ⟨1, 1⟩, unit_of_measurement := some "V" },
   { name := name ++ " Inverter Voltage B", slave := slave, address := 27, data_type := "uint16", scale := some ⟨1, 1⟩, unit_of_measurement := some "V" },
   { name := name ++ " Inverter Voltage C", slave := slave, address := 28, data_type := "uint16", scale := some ⟨1, 1⟩, unit_of_measurement := some "V" },
   { name := name ++ " Inverter Current A", slave := slave, address := 29, data_type := "uint16", scale := some ⟨1, 2⟩, unit_of_measurement := some "A" },
   { name := name ++ " Inverter Current B", slave := slave, address := 30, data_type := "uint16", scale := some ⟨1, 2⟩, unit_of_measurement := some "A" },
   { name := name ++ " Inverter Current C", slave := slave, address := 31, data_type := "uint16", scale := some ⟨1, 2⟩, unit_of_measurement := some "A" },
   { name := name ++ " Grid Voltage A", slave := slave, address := 32, data_type := "uint16", scale := some ⟨1, 1⟩, unit_of_measurement := some "V" },
   { name := name ++ " Grid Voltage B", slave := slave, address := 33, data_type := "uint16", scale := some ⟨1, 1⟩, unit_of_measurement := some "V" },
   { name := name ++ " Grid Voltage C", slave := slave, address := 34, data_type := "uint16", scale := some ⟨1, 1⟩, unit_of_measurement := some "V" },
   { name := name ++ " Grid Current A", slave := slave, address := 35, data_type := "uint16", scale := some ⟨1, 2⟩, unit_of_measurement := some "A" },
   { name := name ++ " Grid Current B", slave := slave, address := 36, data_type := "uint16", scale := some ⟨1, 2⟩, unit_of_measurement := some "A" },
   { name := name ++ " Grid Current C", slave := slave, address := 37, data_type := "uint16", scale := some ⟨1, 2⟩, unit_of_measurement := some "A" },
   { name := name ++ " Load Voltage A", slave := slave, address := 38, data_type := "uint16", scale := some ⟨1, 1⟩, unit_of_measurement := some "V" },
   { name := name ++ " Load Voltage B", slave := slave, address := 39, data_type := "uint16", scale := some ⟨1, 1⟩, unit_of_measurement := some "V" },
   { name := name ++ " Load Voltage C", slave := slave, address := 40, data_type := "uint16", scale := some ⟨1, 1⟩, unit_of_measurement := some "V" },
   { name := name ++ " Load Current A", slave := slave, address := 41, data_type := "uint16", scale := some ⟨1, 2⟩, unit_of_measurement := some "A" },
   { name := name ++ " Load Current B", slave := slave, address := 42, data_type := "uint16", scale := some ⟨1, 2⟩, unit_of_measurement := some "A" },
   { name := name ++ " Load Current C", slave := slave, address := 43, data_type := "uint16", scale := some ⟨1, 2⟩, unit_of_measurement := some "A" },
   { name := name ++ " Diesel Generator Voltage A", slave := slave, address := 44, data_type := "uint16", scale := some ⟨1, 1⟩, unit_of_measurement := some "V" },
   { name := name ++ " Diesel Generator Voltage B", slave := slave, address := 45, data_type := "uint16", scale := some ⟨1, 1⟩, unit_of_measurement := some "V" },
   { name := name ++ " Diesel Generator Voltage C", slave := slave, address := 46, data_type := "uint16", scale := some ⟨1, 1⟩, unit_of_measurement := some "V" },
   { name := name ++ " Diesel Generator Current A", slave := slave, address := 47, data_type := "uint16", scale := some ⟨1, 2⟩, unit_of_measurement := some "A" },
   { name := name ++ " Diesel Generator Current B", slave := slave, address := 48, data_type := "uint16", scale := some ⟨1, 2⟩, unit_of_measurement := some "A" },
   { name := name ++ " Diesel Generator Current C", slave := slave, address := 49, data_type := "uint16", scale := some ⟨1, 2⟩, unit_of_measurement := some "A" },
   { name := name ++ " Inverter Positive Bus Voltage", slave := slave, address := 50, data_type := "uint16", scale := some ⟨1, 1⟩, unit_of_measurement := some "V" },
   { name := name ++ " Negative Bus Voltage", slave := slave, address := 51, data_type := "uint16", scale := some ⟨1, 1⟩, unit_of_measurement := some "V" },
   { name := name ++ " Inverter Frequency", slave := slave, address := 52, data_type := "int16", scale := some ⟨1, 2⟩, unit_of_measurement := some "Hz" },
   { name := name ++ " Grid Frequency", slave := slave, address := 53, data_type := "int16", scale := some ⟨1, 2⟩, unit_of_measurement := some "Hz" },
   { name := name ++ " Diesel Generator Output Frequency", slave := slave, address := 54, data_type := "int16", scale := some ⟨1, 2⟩, unit_of_measurement := some "Hz" },
   { name := name ++ " Maximum Temperature", slave := slave, address := 56, data_type := "uint16", scale := some ⟨1, 1⟩, unit_of_measurement := some "°C" },
   { name := name ++ " Inverter Working Stage", slave := slave, address := 57, data_type := "uint16", unit_of_measurement := some "" },
   { name := name ++ " External CT Power A", slave := slave, address := 58, data_type := "uint16", scale := some ⟨1, 2⟩, unit_of_measurement := some "W", state_class := some "measurement" },
   { name := name ++ " External CT Power B", slave := slave, address := 59, data_type := "uint16", scale := some ⟨1, 2⟩, unit_of_measurement := some "W", state_class := some "measurement" },
   { name := name ++ " External CT Power C", slave := slave, address := 60, data_type := "uint16", scale := some ⟨1, 2⟩, unit_of_measurement := some "W", state_class := some "measurement" },
   { name := name ++ " External CT Current A", slave := slave, address := 61, data_type := "uint16", scale := some ⟨1, 2⟩, unit_of_measurement := some "A" },
   { name := name ++ " External CT Current B", slave := slave, address := 62, data_type := "uint16", scale := some ⟨1, 2⟩, unit_of_measurement := some "A" },
   { name := name ++ " Battery Voltage", slave := slave, address := 2026, data_type := "int16", scale := some ⟨1, 2⟩, unit_of_measurement := some "V" },
   { name := name ++ " Battery Current", slave := slave, address := 2027, data_type := "int16", scale := some ⟨1, 1⟩, unit_of_measurement := some "A" },
   { name := name ++ " Photovoltaic 1 Voltage", slave := slave, address := 2028, data_type := "int16", scale := some ⟨1, 1⟩, unit_of_measurement := some "V" },
   { name := name ++ " Photovoltaic 1 Current", slave := slave, address := 2029, data_type := "int16", scale := some ⟨1, 2⟩, unit_of_measurement := some "A" },
   { name := name ++ " Photovoltaic 2 Voltage", slave := slave, address := 2030, data_type := "int16", scale := some ⟨1, 1⟩, unit_of_measurement := some "V" },
   { name := name ++ " Photovoltaic 2 Current", slave := slave, address := 2031, data_type := "int16", scale := some ⟨1, 2⟩, unit_of_measurement := some "A" },
   { name := name ++ " DC Bus Voltage", slave := slave, address := 2032, data_type := "int16", scale := some ⟨1, 1⟩, unit_of_measurement := some "V" },
   { name := name ++ " DC Positive Bus Voltage", slave := slave, address := 2033, data_type := "int16", scale := some ⟨1, 1⟩, unit_of_measurement := some "V" },
   { name := name ++ " Buck Voltage", slave := slave, address := 2034, data_type := "int16", scale := some ⟨1, 1⟩, unit_of_measurement := some "V" },
   { name := name ++ " Buck Current", slave := slave, address := 2035, data_type := "int16", scale := some ⟨1, 2⟩, unit_of_measurement := some "A" },
   { name := name ++ " Battery Power", slave := slave, address := 2036, data_type := "int16", scale := some ⟨10, 1⟩, unit_of_measurement := some "W", state_class := some "measurement" },
   { name := name ++ " Photovoltaic 1 Power", slave := slave, address := 2037, data_type := "int16", scale := some ⟨10, 1⟩, unit_of_measurement := some "W", state_class := some "measurement" },
   { name := name ++ " Photovoltaic 2 Power", slave := slave, address := 2038, data_type := "int16", scale := some ⟨10, 1⟩, unit_of_measurement := some "W", state_class := some "measurement" },
   { name := name ++ " Battery SOC", slave := slave, address := 2039, data_type := "uint16", scale := some ⟨10, 1⟩, unit_of_measurement := some "%", state_class := some "measurement" }]

/-- `ChisageInverter.__init__` (default scan interval 20). -/
def chisageInverter (name : String) (slave : Int) (host : String) : ModbusDevice :=
  mkModbusDevice name slave host (some 20) (chisageTable name slave)

/-! ## Registry load and upsert (`ModbusDevice.make_config`) -/

/-- The shape sniffing of the registry-load block in `make_config`:
`none` is `FileNotFoundError` (start empty, no warning); a list is taken
directly; a mapping with a `modbus` key holding a list yields that list;
`None` content falls through every branch silently; any other shape prints
the "unexpected data or format" warning and is discarded.  The second
component records whether the warning was printed. -/
def loadRegistry : Option Yaml → List Yaml × Bool
  | none => ([], false)
  | some y =>
    match y with
    | .list xs => (xs, false)
    | .map kvs =>
      match lookupKvs "modbus" kvs with
      | some (.list xs) => (xs, false)
      | _ => ([], true)
    | .null => ([], false)
    | _ => ([], true)

/-- `isinstance(entry, dict) and entry.get("name") == self.name`. -/
def entryNameMatches (y : Yaml) (name : String) : Bool :=
  match y with
  | .map kvs =>
    match lookupKvs "name" kvs with
    | some (.str s) => s = name
    | _ => false
  | _ => false

/-- The upsert loop of `make_config`: replace the first entry whose `name`
equals `name` in place, else append `e` at the end. -/
def upsertHub (l : List Yaml) (name : String) (e : Yaml) : List Yaml :=
  match l with
  | [] => [e]
  | x :: xs => if entryNameMatches x name then e :: xs else x :: upsertHub xs name e

/-- The `hub_entry` dict literal of `make_config`. -/
def hubEntryOf (dev : ModbusDevice) (port : Int) : Yaml :=
  .map [("name", .str dev.name), ("type", .str "tcp"), ("host", .str dev.host),
        ("port", .int port),
        ("sensors", .str ("!include chisage/" ++ slugify dev.name ++ "_sensors.yaml"))]

/-! ## File-system state and the `__main__` entry point -/

/-- The files the program touches: `modbus_devices.yaml` (its `yaml.safe_load`
value, `none` when absent) and the files under `chisage/`, keyed by path. -/
structure FS where
  registry : Option Yaml := none
  sensorFiles : List (String × Yaml) := []
  cardFiles : List (String × Yaml) := []

/-- `open(path, "w")`: overwrite the file if present, else create it. -/
def setFile (files : List (String × Yaml)) (path : String) (content : Yaml) :
    List (String × Yaml) :=
  match files with
  | [] => [(path, content)]
  | (p, c) :: rest =>
    if p = path then (path, content) :: rest else (p, c) :: setFile rest path content

/-- `ModbusDevice.make_config`: write the per-device sensor file, load the
registry, upsert this device's hub entry, rewrite the registry. -/
def makeConfig (dev : ModbusDevice) (port : Int) (fs : FS) : FS :=
  let sensorList := Yaml.list (dev.sensors.map (fun r => Yaml.map r.toDict))
  let path := "chisage/" ++ slugify dev.name ++ "_sensors.yaml"
  let fs1 : FS := { fs with sensorFiles := setFile fs.sensorFiles path sensorList }
  let entries := (loadRegistry fs1.registry).1
  let entries' := upsertHub entries dev.name (hubEntryOf dev port)
  { fs1 with registry := some (.list entries') }

/-- Card configuration for one register (`card_entities` loop in `__main__`). -/
def cardEntity (dev : ModbusDevice) (r : ModbusRegister) : Yaml :=
  let entityId := "sensor." ++ cardSlug r.name
  let display :=
    if (dev.name ++ " ").data.isPrefixOf r.name.data
    then ⟨r.name.data.drop (dev.name.length + 1)⟩ else r.name
  .map [("entity", .str entityId), ("name", .str display)]

/-- The card file written when `--generate-cards` is set. -/
def writeCard (dev : ModbusDevice) (fs : FS) : FS :=
  let card := Yaml.map [("type", .str "entities"), ("title", .str dev.name),
                        ("entities", .list (dev.sensors.map (cardEntity dev)))]
  { fs with cardFiles := setFile fs.cardFiles ("chisage/" ++ cardSlug dev.name ++ "_card.yaml") card }

/-- Parsed command line (after `argparse`); `none` means the flag was not
given.  `argparse` guarantees exactly one of the two IP flags and exactly one
of the two port flags is present, but a present flag may carry a falsy value
(`""`, `0`), which the truthiness tests in `__main__` then ignore. -/
structure Args where
  count : Int
  slaveId : Int := 1
  ipStart : Option String := none
  ipFixed : Option String := none
  portStart : Option Int := none
  portFixed : Option Int := none
  generateCards : Bool := false

/-- Python truthiness of `args.ip_start` / `args.ip_fixed`. -/
def truthyStr : Option String → Bool
  | some s => s ≠ ""
  | none => false

/-- Python truthiness of `args.port_start` / `args.port_fixed`. -/
def truthyInt : Option Int → Bool
  | some n => n ≠ 0
  | none => false

/-- `o.isdigit() and 0 <= int(o) <= 255` on one dot-separated part. -/
def octetOk (o : List Char) : Bool :=
  !o.isEmpty && o.all Char.isDigit && parseNatDigits o ≤ 255

/-- The IP validation in `__main__`: exactly 4 dot-separated octets, each a
digit string with value at most 255; returns the first three octets rejoined
with dots (`base_ip_prefix`) and the numeric last octet (`last_octet_start`). -/
def parseIp (s : String) : Option (String × Nat) :=
  match splitOnChar '.' s.data with
  | [a, b, c, d] =>
    if octetOk a && octetOk b && octetOk c && octetOk d then
      some (⟨a ++ '.' :: b ++ '.' :: c⟩, parseNatDigits d)
    else none
  | _ => none

/-- Resolved IP configuration after the setup block: incremental
(`ip_mode_is_start` with `base_ip_prefix`, `last_octet_start`), fixed
(`fixed_ip_str`), or unassigned (both flags falsy — no variable was set). -/
inductive IpCfg where
  | inc (base : String) (lastOctet : Nat)
  | fixedIp (s : String)
  | unassigned
  deriving DecidableEq

/-- Resolved port configuration after the setup block. -/
inductive PortCfg where
  | inc (base : Int)
  | fixedPort (p : Int)
  | unassigned
  deriving DecidableEq

/-- How a run ends: normal completion, `exit(1)` after a printed error
message, or an unhandled exception (Python prints the traceback and the
process exits with a non-zero status). -/
inductive Outcome where
  | ok
  | exited (msg : String)
  | crashed (msg : String)
  deriving DecidableEq

/-- Name/host/port/slave tuple derived for one generated instance. -/
structure DeviceTuple where
  name : String
  host : String
  port : Int
  slave : Int
  deriving DecidableEq

/-- One loop iteration's file writes, given the already-derived parameters:
`make_config` followed by the optional card file. -/
def stepInstance (slaveId : Int) (cards : Bool) (name host : String) (port : Int)
    (fs : FS) : FS :=
  let dev := chisageInverter name slaveId host
  let fs' := makeConfig dev port fs
  if cards then writeCard dev fs' else fs'

/-- Host determination for run index `i` (top of each loop iteration):
last-octet overflow aborts the whole run with `exit(1)`; an unassigned
`fixed_ip_str` raises `NameError`. -/
def hostAt (ip : IpCfg) (i : Nat) : Outcome ⊕ String :=
  match ip with
  | .inc base lastOctet =>
    if lastOctet + i > 255 then
      .inl (.exited "IP address range overflow for --ip-start")
    else .inr (base ++ "." ++ natRepr (lastOctet + i))
  | .fixedIp s => .inr s
  | .unassigned => .inl (.crashed "NameError: fixed_ip_str")

/-- Port determination for run index `i`; an unassigned `port_to_process`
raises `NameError`. -/
def portAt (port : PortCfg) (i : Nat) : Outcome ⊕ Int :=
  match port with
  | .inc pbase => .inr (pbase + i)
  | .fixedPort p => .inr p
  | .unassigned => .inl (.crashed "NameError: port_to_process")

/-- The generation loop of `__main__`, iterating `fuel` more times starting
at run index `i`: determine host and port, build `ChisageInverter`, call
`make_config`, optionally write the card file. -/
def genLoop (ip : IpCfg) (port : PortCfg) (slaveId : Int) (cards : Bool) :
    Nat → Nat → FS → List DeviceTuple → Outcome × FS × List DeviceTuple
  | 0, _, fs, acc => (.ok, fs, acc.reverse)
  | fuel + 1, i, fs, acc =>
    match hostAt ip i with
    | .inl out => (out, fs, acc.reverse)
    | .inr host =>
      match portAt port i with
      | .inl out => (out, fs, acc.reverse)
      | .inr portVal =>
        let name := "Chisage " ++ natRepr (i + 1)
        genLoop ip port slaveId cards fuel (i + 1)
          (stepInstance slaveId cards name host portVal fs)
          ({ name := name, host := host, port := portVal, slave := slaveId } :: acc)

/-- The IP setup block of `__main__`: the truthiness-guarded branches with
their validation and `exit(1)` on bad format. -/
def ipSetup (args : Args) : Outcome ⊕ IpCfg :=
  if truthyStr args.ipStart then
    match parseIp (args.ipStart.getD "") with
    | some (base, lastOctet) => .inr (.inc base lastOctet)
    | none => .inl (.exited "Invalid IP address format for --ip-start")
  else if truthyStr args.ipFixed then
    match parseIp (args.ipFixed.getD "") with
    | some _ => .inr (.fixedIp (args.ipFixed.getD ""))
    | none => .inl (.exited "Invalid IP address format for --ip-fixed")
  else .inr .unassigned

/-- The port setup block of `__main__`. -/
def portSetup (args : Args) : PortCfg :=
  if truthyInt args.portStart then .inc (args.portStart.getD 0)
  else if truthyInt args.portFixed then .fixedPort (args.portFixed.getD 0)
  else .unassigned

/-- The body of `__main__` after `argparse`: IP setup (with validation and
`exit(1)` on bad format), port setup, count check, then the generation loop.
Returns the outcome, the final file-system state, and the derived device
tuples of the completed iterations. -/
def run (args : Args) (fs : FS) : Outcome × FS × List DeviceTuple :=
  match ipSetup args with
  | .inl out => (out, fs, [])
  | .inr ipCfg =>
    if args.count ≤ 0 then
      (.exited "Count must be a positive integer", fs, [])
    else
      genLoop ipCfg (portSetup args) args.slaveId args.generateCards args.count.toNat 0 fs []

/-- Number of entries whose `name` field equals `n`. -/
def countMatches (l : List Yaml) (n : String) : Nat :=
  l.countP (fun x => entryNameMatches x n)

/-- Position of the first entry whose `name` field equals `n`. -/
def firstMatchIdx (l : List Yaml) (n : String) : Option Nat :=
  match l with
  | [] => none
  | x :: xs =>
    if entryNameMatches x n then some 0 else (firstMatchIdx xs n).map (· + 1)

/-! ## Text-level YAML emission and parsing

The program's two `yaml.dump` call sites emit block lists of flat mappings
with scalar values (`sort_keys=False, indent=2`, default emitter options).
This section embeds exactly that fragment of PyYAML's text behaviour, for
the scalar domain the program can produce (keyed by the `plainSafe` /
`printableAscii` predicates below, which keep every scalar inside the
regime where PyYAML writes it plain or single-quoted on a single line and
`yaml.safe_load` resolves it back to the same value).  Length bounds keep
emitted lines under PyYAML's default folding width of 80 columns. -/

/-- Words PyYAML's implicit resolver would turn into booleans or null. -/
def yamlReserved : List (List Char) :=
  [("true").data, ("True").data, ("TRUE").data, ("false").data, ("False").data,
   ("FALSE").data, ("yes").data, ("Yes").data, ("YES").data, ("no").data,
   ("No").data, ("NO").data, ("on").data, ("On").data, ("ON").data,
   ("off").data, ("Off").data, ("OFF").data, ("null").data, ("Null").data,
   ("NULL").data]

/-- Characters a plain (unquoted) scalar may contain in our domain. -/
def allowedPlainChar (c : Char) : Bool :=
  c.isAlphanum || c == ' ' || c == '_' || c == '.' || c == '/' || c == '-' || c == '%'

/-- Text PyYAML's implicit resolver reads as an integer (decimal form). -/
def looksLikeIntChars (cs : List Char) : Bool :=
  match cs with
  | [] => false
  | c :: rest =>
    if c = '-' then !rest.isEmpty && rest.all Char.isDigit
    else (c :: rest).all Char.isDigit

/-- Text our float emission produces: digits, one dot, digits. -/
def looksLikeFloatChars (cs : List Char) : Bool :=
  match splitOnChar '.' cs with
  | [a, b] => !a.isEmpty && a.all Char.isDigit && !b.isEmpty && b.all Char.isDigit
  | _ => false

/-- Digits-and-dots text with at least two dots (e.g. a dotted IP address):
plain in YAML and not resolvable as a number. -/
def dottedNumeric (cs : List Char) : Bool :=
  cs.all (fun c => c.isDigit || c == '.') &&
  (match cs with | c :: _ => c.isDigit | [] => false) &&
  (match cs.getLast? with | some c => c.isDigit | none => false) &&
  3 ≤ (splitOnChar '.' cs).length

/-- Strings PyYAML emits as a plain scalar and reads back as the same
string: nonempty, made of benign characters, no trailing space, not
resolvable as a number, and either letter-initial (and not a reserved
word) or dotted-numeric. -/
def plainSafe (cs : List Char) : Bool :=
  !cs.isEmpty && cs.all allowedPlainChar &&
  (match cs.getLast? with | some c => c ≠ ' ' | none => false) &&
  !looksLikeIntChars cs && !looksLikeFloatChars cs &&
  ((match cs with | c :: _ => c.isAlpha | [] => false) &&
     !(yamlReserved.any (fun w => w == cs)) ||
   dottedNumeric cs)

def printableAscii (c : Char) : Bool := 32 ≤ c.toNat && c.toNat ≤ 126

/-- Characters the embedding supports in PyYAML's double-quoted style
(`allow_unicode=False`): printable ASCII other than the delimiter and the
escape character stays literal; a byte in `0x80`-`0xFF` is emitted as a
`\xXX` escape. -/
def dqOkChar (c : Char) : Bool :=
  (printableAscii c && c ≠ '"' && c ≠ '\\') || (128 ≤ c.toNat && c.toNat ≤ 255)

def hexDigitChar (n : Nat) : Char :=
  if n < 10 then Char.ofNat (48 + n) else Char.ofNat (55 + n)

def hexVal (c : Char) : Option Nat :=
  if '0' ≤ c ∧ c ≤ '9' then some (c.toNat - 48)
  else if 'A' ≤ c ∧ c ≤ 'F' then some (c.toNat - 55)
  else none

/-- Double-quoted style body: a non-ASCII character becomes a `\xXX`
escape (PyYAML's `write_double_quoted` with `allow_unicode=False`). -/
def escDQ (cs : List Char) : List Char :=
  (cs.map (fun c =>
    if c.toNat ≤ 126 then [c]
    else ['\\', 'x', hexDigitChar (c.toNat / 16), hexDigitChar (c.toNat % 16)])).flatten

def dQuoteChars (cs : List Char) : List Char := '"' :: (escDQ cs ++ ['"'])

/-- Undo double-quoted style; fuel-based on the input length so that it
reduces definitionally. -/
def unescDQ : Nat → List Char → Option (List Char)
  | 0, _ => none
  | _ + 1, [] => none
  | f + 1, c :: rest =>
    if c = '"' then (if rest.isEmpty then some [] else none)
    else if c = '\\' then
      match rest with
      | 'x' :: c2 :: c3 :: rest2 =>
        match hexVal c2, hexVal c3 with
        | some a, some b =>
          (unescDQ f rest2).map (fun out => Char.ofNat (16 * a + b) :: out)
        | _, _ => none
      | _ => none
    else (unescDQ f rest).map (fun out => c :: out)

/-- Strings in the embedded emission domain. -/
def strOk (cs : List Char) : Bool :=
  (plainSafe cs || cs.all printableAscii || cs.all dqOkChar) && cs.length ≤ 50

/-- Scalar values in the embedded emission domain. -/
def scalarOk : Yaml → Bool
  | .str s => strOk s.data
  | .int _ => true
  | .float d => 1 ≤ d.e
  | _ => false

def keyOk (k : String) : Bool := plainSafe k.data && k.length ≤ 25

/-- A flat mapping in the embedded emission domain. -/
def itemOk (kvs : List (String × Yaml)) : Bool :=
  !kvs.isEmpty && kvs.all (fun kv => keyOk kv.1 && scalarOk kv.2)

/-- Single-quoted style body: internal quotes are doubled. -/
def escSQ (cs : List Char) : List Char :=
  (cs.map (fun c => if c = '\'' then ['\'', '\''] else [c])).flatten

def sQuoteChars (cs : List Char) : List Char := '\'' :: (escSQ cs ++ ['\''])

/-- Left-pad with zeros to `e` digits (the fractional part of a float). -/
def padZeros (e : Nat) (ds : List Char) : List Char :=
  List.replicate (e - ds.length) '0' ++ ds

/-- Python `repr` of the float `d.m / 10 ^ d.e` (for `d.e ≥ 1`). -/
def decChars (d : Dec) : List Char :=
  natReprAux (d.m / 10 ^ d.e + 1) (d.m / 10 ^ d.e) ++
    '.' :: padZeros d.e (natReprAux (d.m % 10 ^ d.e + 1) (d.m % 10 ^ d.e))

/-- PyYAML scalar emission on the embedded domain: plain where safe,
single-quoted otherwise; numbers by their `repr`. -/
def emitScalarChars : Yaml → List Char
  | .str s =>
    if plainSafe s.data then s.data
    else if s.data.all printableAscii then sQuoteChars s.data
    else dQuoteChars s.data
  | .int n => (intRepr n).data
  | .float d => decChars d
  | _ => []

def kvLineChars (k : String) (v : Yaml) : List Char :=
  k.data ++ ':' :: ' ' :: emitScalarChars v

/-- The block lines of one list item (a flat mapping): `- ` before the first
key, two-space indent before the rest. -/
def emitItemLines : List (String × Yaml) → List (List Char)
  | [] => []
  | (k, v) :: rest =>
    ('-' :: ' ' :: kvLineChars k v) ::
      rest.map (fun kv => ' ' :: ' ' :: kvLineChars kv.1 kv.2)

def emitDocLines (items : List (List (String × Yaml))) : List (List Char) :=
  (items.map emitItemLines).flatten

def joinLines (ls : List (List Char)) : List Char :=
  (ls.map (fun l => l ++ ['\n'])).flatten

/-- `yaml.dump(items, sort_keys=False, indent=2)` for a list of flat
mappings over the embedded scalar domain. -/
def docText (items : List (List (String × Yaml))) : String :=
  ⟨joinLines (emitDocLines items)⟩

/-- `re.sub(r"'(!include [^']+\.yaml)'", r"\1", ...)` on one output line.
A match is a single-quoted run starting with `!include ` and ending with
`.yaml` preceded by at least one more character (hence total length at
least 15).  On the dumped text of a registry in the embedded domain, quote
characters occur only as the delimiters of `sensors` scalars, each pair on
one line, so the global substitution coincides with this per-line form. -/
def stripLineChars (l : List Char) : List Char :=
  match splitOnChar '\'' l with
  | [p, mid, suf] =>
    if ("!include ").data.isPrefixOf mid && (".yaml").data.isSuffixOf mid &&
       15 ≤ mid.length
    then p ++ mid ++ suf else l
  | _ => l

def registryLines (items : List (List (String × Yaml))) : List (List Char) :=
  (emitDocLines items).map stripLineChars

/-- The registry-file text written at the end of `make_config`: `yaml.dump`
of the entry list followed by the `re.sub` that unquotes `!include`
markers. -/
def registryText (items : List (List (String × Yaml))) : String :=
  ⟨joinLines (registryLines items)⟩

/-! ### Parsing (`yaml.safe_load` on the emitted fragment, with the
`!include` constructor registered on the `SafeLoader`) -/

/-- Undo single-quoted style: the body ends at an undoubled quote. -/
def unquoteSQ : List Char → Option (List Char)
  | [] => none
  | c :: rest =>
    if c = '\'' then
      match rest with
      | [] => some []
      | c2 :: rest2 =>
        if c2 = '\'' then (unquoteSQ rest2).map (fun r => '\'' :: r)
        else none
    else (unquoteSQ rest).map (fun r => c :: r)

def parseIntChars (cs : List Char) : Int :=
  match cs with
  | [] => (parseNatDigits [] : Nat)
  | c :: rest =>
    if c = '-' then -(parseNatDigits rest : Int) else (parseNatDigits (c :: rest) : Nat)

/-- Resolve one scalar text: single-quoted strings; `!include`-tagged
scalars (the custom `include_constructor` returns `node.tag + ' ' +
node.value`, i.e. the literal string `!include <path>`); decimal ints and
floats; anything else is a plain string. -/
def parseScalarChars (cs : List Char) : Option Yaml :=
  if cs.head? = some '\'' then (unquoteSQ cs.tail).map (fun r => Yaml.str ⟨r⟩)
  else if cs.head? = some '"' then (unescDQ cs.length cs.tail).map (fun r => Yaml.str ⟨r⟩)
  else if ("!include ").data.isPrefixOf cs then
    some (.str ⟨("!include ").data ++ (cs.drop 9).dropWhile (fun c => c = ' ')⟩)
  else if looksLikeIntChars cs then some (.int (parseIntChars cs))
  else if looksLikeFloatChars cs then
    match splitOnChar '.' cs with
    | [a, b] => some (.float ⟨parseNatDigits a * 10 ^ b.length + parseNatDigits b, b.length⟩)
    | _ => none
  else some (.str ⟨cs⟩)

/-- Split `key: value` at the first colon-space. -/
def splitKvChars : List Char → Option (List Char × List Char)
  | [] => none
  | c :: rest =>
    if c = ':' ∧ rest.head? = some ' ' then some ([], rest.tail)
    else (splitKvChars rest).map (fun p => (c :: p.1, p.2))

def parseKvLine (l : List Char) : Option (String × Yaml) :=
  match splitKvChars l with
  | some (k, v) => (parseScalarChars v).map (fun y => (⟨k⟩, y))
  | none => none

def parseItemLines (ls : List (List Char)) : Option (List (String × Yaml)) :=
  ls.mapM parseKvLine

def dashMark : List Char := ['-', ' ']
def indentMark : List Char := [' ', ' ']

/-- Group the lines of a block list of flat mappings into items and parse
each; fuel-based on the number of lines so that it reduces
definitionally. -/
def parseLinesAux : Nat → List (List Char) → Option (List (List (String × Yaml)))
  | _, [] => some []
  | 0, _ :: _ => none
  | f + 1, l :: ls =>
    if dashMark.isPrefixOf l then
      let conts := ls.takeWhile (fun x => indentMark.isPrefixOf x)
      let rest := ls.dropWhile (fun x => indentMark.isPrefixOf x)
      match parseItemLines (l.drop 2 :: conts.map (fun x => x.drop 2)),
            parseLinesAux f rest with
      | some kvs, some more => some (kvs :: more)
      | _, _ => none
    else none

/-- `yaml.safe_load` on the emitted fragment: split into lines (the dump
ends with a newline), group into items, parse each flat mapping. -/
def parseDocText (s : String) : Option (List Yaml) :=
  let parts := splitOnChar '\n' s.data
  match parts.getLast? with
  | some [] =>
    match parseLinesAux parts.dropLast.length parts.dropLast with
    | some items => some (items.map Yaml.map)
    | none => none
  | _ => none

/-! ### Domain predicates for registry entries (used by the text-level
claims about the registry file) -/

/-- Paths acceptable to the `!include` unquoting regex and round-trippable:
printable, quote-free, ending in `.yaml` with at least one preceding
character, not starting with a space. -/
def pathOk (p : List Char) : Bool :=
  p.all printableAscii && !p.contains '\'' && (".yaml").data.isSuffixOf p &&
  6 ≤ p.length && p.length ≤ 40 && p.head? ≠ some ' '

def sensorsValOk (s : String) : Bool :=
  ("!include ").data.isPrefixOf s.data && pathOk (s.data.drop 9)

/-- One registry-entry field: the `sensors` field is an `!include` marker;
every other field is an int or a plain-emitted string (so that quote
characters occur only around `sensors` scalars). -/
def regKvOk (k : String) (v : Yaml) : Bool :=
  if k = "sensors" then
    match v with
    | .str s => sensorsValOk s
    | _ => false
  else
    match v with
    | .str s => plainSafe s.data && s.length ≤ 50
    | .int _ => true
    | _ => false

def regEntryOk (kvs : List (String × Yaml)) : Bool :=
  !kvs.isEmpty && kvs.all (fun kv => keyOk kv.1 && regKvOk kv.1 kv.2)


/-- The register list of an actual generated device instance (the full
49-register table with its `°C`, empty and `%` units), used to evaluate
the embedding. -/
def sampleRegs : List ModbusRegister :=
  (chisageInverter "Chisage 1" 1 "192.168.1.10").sensors

/-- A concrete two-entry registry used to evaluate the embedding. -/
def sampleEntries : List (List (String × Yaml)) :=
  [[("name", .str "Chisage 1"), ("type", .str "tcp"),
    ("host", .str "192.168.1.10"), ("port", .int 502),
    ("sensors", .str "!include chisage/chisage_1_sensors.yaml")],
   [("name", .str "Chisage 2"), ("type", .str "tcp"),
    ("host", .str "192.168.1.11"), ("port", .int 503),
    ("sensors", .str "!include chisage/chisage_2_sensors.yaml")]]

/-! ## Theorems -/

lemma countMatches_nil (n : String) : countMatches [] n = 0 := rfl

lemma countMatches_cons (x : Yaml) (l : List Yaml) (n : String) :
    countMatches (x :: l) n = countMatches l n + (if entryNameMatches x n then 1 else 0) := by
  simp [countMatches, List.countP_cons]

lemma entryNameMatches_map_name (s : String) (rest : List (String × Yaml)) (m : String) :
    entryNameMatches (Yaml.map (("name", Yaml.str s) :: rest)) m = decide (s = m) := rfl

lemma upsertHub_of_none (l : List Yaml) (n : String) (e : Yaml)
    (h : firstMatchIdx l n = none) : upsertHub l n e = l ++ [e] := by
  induction l with
  | nil => rfl
  | cons x xs ih =>
    cases hx : entryNameMatches x n with
    | true => simp [firstMatchIdx, hx] at h
    | false =>
      simp [firstMatchIdx, hx] at h
      simp [upsertHub, hx, ih h]

lemma upsertHub_of_some (l : List Yaml) (n : String) (e : Yaml) :
    ∀ i, firstMatchIdx l n = some i → upsertHub l n e = l.set i e := by
  induction l with
  | nil => intro i h; simp [firstMatchIdx] at h
  | cons x xs ih =>
    intro i h
    cases hx : entryNameMatches x n with
    | true =>
      simp [firstMatchIdx, hx] at h
      subst h
      simp [upsertHub, hx]
    | false =>
      simp [firstMatchIdx, hx] at h
      obtain ⟨j, hj, rfl⟩ := h
      simp [upsertHub, hx, ih j hj]

lemma upsertHub_idem (l : List Yaml) (n : String) (e : Yaml)
    (h1 : entryNameMatches e n = true) :
    upsertHub (upsertHub l n e) n e = upsertHub l n e := by
  induction l with
  | nil => simp [upsertHub, h1]
  | cons x xs ih =>
    cases hx : entryNameMatches x n with
    | true => simp [upsertHub, hx, h1]
    | false => simp [upsertHub, hx, ih]

lemma countMatches_upsert_eq_one (l : List Yaml) (n : String) (e : Yaml)
    (h1 : entryNameMatches e n = true) (h2 : countMatches l n ≤ 1) :
    countMatches (upsertHub l n e) n = 1 := by
  induction l with
  | nil =>
    rw [show upsertHub [] n e = [e] from rfl, countMatches_cons, countMatches_nil, h1]
    simp
  | cons x xs ih =>
    rw [countMatches_cons] at h2
    cases hx : entryNameMatches x n with
    | true =>
      rw [hx] at h2
      simp at h2
      have hxs : countMatches xs n = 0 := by omega
      simp [upsertHub, hx, countMatches_cons, hxs, h1]
    | false =>
      rw [hx] at h2
      simp at h2
      simp [upsertHub, hx, countMatches_cons, ih (by omega)]

lemma countMatches_upsert_ne (l : List Yaml) (n m : String) (e : Yaml)
    (hem : entryNameMatches e m = false) :
    countMatches (upsertHub l n e) m ≤ countMatches l m := by
  induction l with
  | nil =>
    rw [show upsertHub [] n e = [e] from rfl, countMatches_cons, countMatches_nil, hem]
    simp
  | cons x xs ih =>
    cases hx : entryNameMatches x n with
    | true =>
      have hgoal : upsertHub (x :: xs) n e = e :: xs := by simp [upsertHub, hx]
      rw [hgoal, countMatches_cons, countMatches_cons, hem]
      have h0 : (if (false = true) then 1 else 0) = 0 := by simp
      rw [h0]
      split <;> omega
    | false =>
      have hgoal : upsertHub (x :: xs) n e = x :: upsertHub xs n e := by
        simp [upsertHub, hx]
      rw [hgoal, countMatches_cons, countMatches_cons]
      have := ih
      split <;> omega

/-- C3: upserting the same hub entry twice is idempotent: provided the
registry satisfies the uniqueness invariant for the entry's name (at most one
entry with that name) and the entry carries its own name, the registry after
the second upsert equals the registry after the first, and it contains
exactly one entry whose name equals the entry's name. -/
theorem upsert_twice_idempotent (l : List Yaml) (n : String) (e : Yaml)
    (h1 : entryNameMatches e n = true) (h2 : countMatches l n ≤ 1) :
    upsertHub (upsertHub l n e) n e = upsertHub l n e ∧
    countMatches (upsertHub l n e) n = 1 :=
  ⟨upsertHub_idem l n e h1, countMatches_upsert_eq_one l n e h1 h2⟩

theorem upsert_twice_idempotent_witness :
    entryNameMatches (hubEntryOf (chisageInverter "Chisage 1" 1 "10.0.0.7") 502) "Chisage 1" = true ∧
    countMatches [Yaml.map [("name", .str "Chisage 2")]] "Chisage 1" ≤ 1 ∧
    (upsertHub (upsertHub [Yaml.map [("name", .str "Chisage 2")]] "Chisage 1"
        (hubEntryOf (chisageInverter "Chisage 1" 1 "10.0.0.7") 502)) "Chisage 1"
        (hubEntryOf (chisageInverter "Chisage 1" 1 "10.0.0.7") 502) =
      upsertHub [Yaml.map [("name", .str "Chisage 2")]] "Chisage 1"
        (hubEntryOf (chisageInverter "Chisage 1" 1 "10.0.0.7") 502) ∧
     countMatches (upsertHub [Yaml.map [("name", .str "Chisage 2")]] "Chisage 1"
        (hubEntryOf (chisageInverter "Chisage 1" 1 "10.0.0.7") 502)) "Chisage 1" = 1) :=
  ⟨by decide, by decide,
   upsert_twice_idempotent _ _ _ (by decide) (by decide)⟩

/-- C4: on a registry whose entry names are unique, the upsert preserves
uniqueness (never creates a duplicate name), replaces in place at the
original position when a name match exists (all other entries unchanged, via
`List.set`), and appends at the end otherwise. -/
theorem upsert_preserves_unique_names (l : List Yaml) (n : String) (e : Yaml)
    (he : ∀ m, entryNameMatches e m = true ↔ m = n)
    (hu : ∀ m, countMatches l m ≤ 1) :
    (∀ m, countMatches (upsertHub l n e) m ≤ 1) ∧
    (∀ i, firstMatchIdx l n = some i → upsertHub l n e = l.set i e) ∧
    (firstMatchIdx l n = none → upsertHub l n e = l ++ [e]) := by
  refine ⟨?_, upsertHub_of_some l n e, upsertHub_of_none l n e⟩
  intro m
  by_cases hm : m = n
  · subst hm
    have h1 : entryNameMatches e m = true := (he m).mpr rfl
    exact le_of_eq (countMatches_upsert_eq_one l m e h1 (hu m))
  · have hem : entryNameMatches e m = false := by
      cases h : entryNameMatches e m with
      | false => rfl
      | true => exact absurd ((he m).mp h) hm
    exact le_trans (countMatches_upsert_ne l n m e hem) (hu m)

theorem upsert_preserves_unique_names_witness :
    (∀ m, entryNameMatches (Yaml.map [("name", Yaml.str "Chisage 1"), ("port", Yaml.int 5001)]) m = true ↔
       m = "Chisage 1") ∧
    (∀ m, countMatches [Yaml.map [("name", Yaml.str "Chisage 1"), ("port", Yaml.int 502)],
       Yaml.map [("name", Yaml.str "Chisage 2")]] m ≤ 1) ∧
    ((∀ m, countMatches (upsertHub [Yaml.map [("name", Yaml.str "Chisage 1"), ("port", Yaml.int 502)],
          Yaml.map [("name", Yaml.str "Chisage 2")]] "Chisage 1"
          (Yaml.map [("name", Yaml.str "Chisage 1"), ("port", Yaml.int 5001)])) m ≤ 1) ∧
     (∀ i, firstMatchIdx [Yaml.map [("name", Yaml.str "Chisage 1"), ("port", Yaml.int 502)],
          Yaml.map [("name", Yaml.str "Chisage 2")]] "Chisage 1" = some i →
        upsertHub [Yaml.map [("name", Yaml.str "Chisage 1"), ("port", Yaml.int 502)],
          Yaml.map [("name", Yaml.str "Chisage 2")]] "Chisage 1"
          (Yaml.map [("name", Yaml.str "Chisage 1"), ("port", Yaml.int 5001)]) =
        [Yaml.map [("name", Yaml.str "Chisage 1"), ("port", Yaml.int 502)],
          Yaml.map [("name", Yaml.str "Chisage 2")]].set i
          (Yaml.map [("name", Yaml.str "Chisage 1"), ("port", Yaml.int 5001)])) ∧
     (firstMatchIdx [Yaml.map [("name", Yaml.str "Chisage 1"), ("port", Yaml.int 502)],
          Yaml.map [("name", Yaml.str "Chisage 2")]] "Chisage 1" = none →
        upsertHub [Yaml.map [("name", Yaml.str "Chisage 1"), ("port", Yaml.int 502)],
          Yaml.map [("name", Yaml.str "Chisage 2")]] "Chisage 1"
          (Yaml.map [("name", Yaml.str "Chisage 1"), ("port", Yaml.int 5001)]) =
        [Yaml.map [("name", Yaml.str "Chisage 1"), ("port", Yaml.int 502)],
          Yaml.map [("name", Yaml.str "Chisage 2")]] ++
          [Yaml.map [("name", Yaml.str "Chisage 1"), ("port", Yaml.int 5001)]])) := by
  have hhe : ∀ m, entryNameMatches (Yaml.map [("name", Yaml.str "Chisage 1"), ("port", Yaml.int 5001)]) m = true ↔
      m = "Chisage 1" := by
    intro m
    rw [entryNameMatches_map_name]
    simp [eq_comm]
  have hhu : ∀ m, countMatches [Yaml.map [("name", Yaml.str "Chisage 1"), ("port", Yaml.int 502)],
      Yaml.map [("name", Yaml.str "Chisage 2")]] m ≤ 1 := by
    intro m
    rw [countMatches_cons, countMatches_cons, countMatches_nil,
        entryNameMatches_map_name, entryNameMatches_map_name]
    rcases eq_or_ne "Chisage 1" m with h1 | h1 <;> rcases eq_or_ne "Chisage 2" m with h2 | h2
    · exact absurd (h1.trans h2.symm) (by decide)
    all_goals simp [h1, h2]
  exact ⟨hhe, hhu, upsert_preserves_unique_names _ _ _ hhe hhu⟩

/-- C5: registry-load shape resolution: absent file and `None` content yield
the empty list without a warning; a bare list is taken as the entries; a
mapping with a `modbus` key holding a list yields that list; every other
non-null shape (mapping without such a key, or any other scalar or value)
is warned about and treated as empty; and when the load yields the empty
list, the subsequent `make_config` write replaces the registry with exactly
the current entry. -/
theorem registry_load_shapes :
    loadRegistry none = ([], false) ∧
    (∀ xs, loadRegistry (some (.list xs)) = (xs, false)) ∧
    loadRegistry (some .null) = ([], false) ∧
    (∀ kvs xs, lookupKvs "modbus" kvs = some (.list xs) →
       loadRegistry (some (.map kvs)) = (xs, false)) ∧
    (∀ kvs, (∀ xs, lookupKvs "modbus" kvs ≠ some (.list xs)) →
       loadRegistry (some (.map kvs)) = ([], true)) ∧
    (∀ b, loadRegistry (some (.bool b)) = ([], true)) ∧
    (∀ n, loadRegistry (some (.int n)) = ([], true)) ∧
    (∀ d, loadRegistry (some (.float d)) = ([], true)) ∧
    (∀ s, loadRegistry (some (.str s)) = ([], true)) ∧
    (∀ dev port fs, (loadRegistry fs.registry).1 = [] →
       (makeConfig dev port fs).registry = some (.list [hubEntryOf dev port])) := by
  refine ⟨rfl, fun xs => rfl, rfl, ?_, ?_, fun b => rfl, fun n => rfl,
    fun d => rfl, fun s => rfl, ?_⟩
  · intro kvs xs h
    simp [loadRegistry, h]
  · intro kvs h
    simp only [loadRegistry]
  · intro dev port fs h
    simp [makeConfig, h, upsertHub]

theorem registry_load_shapes_witness :
    (∀ xs, lookupKvs "modbus" [("foo", Yaml.int 1)] ≠ some (.list xs)) ∧
    loadRegistry (some (.map [("foo", Yaml.int 1)])) = ([], true) :=
  ⟨fun xs h => by simp [lookupKvs] at h,
   registry_load_shapes.2.2.2.2.1 [("foo", Yaml.int 1)]
     (fun xs h => by simp [lookupKvs] at h)⟩

/-! ### Lemmas about the generation loop and the entry point -/

lemma parseIp_empty : parseIp "" = none := rfl

lemma parseIp_lastOctet_le (s b : String) (L : Nat) (h : parseIp s = some (b, L)) :
    L ≤ 255 := by
  unfold parseIp at h
  split at h
  · split at h
    · rename_i hcond
      simp only [Option.some.injEq, Prod.mk.injEq] at h
      simp only [Bool.and_eq_true, octetOk, decide_eq_true_eq] at hcond
      omega
    · exact Option.noConfusion h
  · exact Option.noConfusion h

lemma hostAt_inl_ne_ok (ip : IpCfg) (i : Nat) (out : Outcome)
    (h : hostAt ip i = .inl out) : out ≠ .ok := by
  cases ip with
  | inc base L =>
    simp only [hostAt] at h
    by_cases hov : L + i > 255
    · rw [if_pos hov] at h
      cases h
      decide
    · rw [if_neg hov] at h
      exact Sum.noConfusion h
  | fixedIp s => exact absurd h (by simp [hostAt])
  | unassigned =>
    simp only [hostAt] at h
    cases h
    decide

lemma portAt_inl_ne_ok (pc : PortCfg) (i : Nat) (out : Outcome)
    (h : portAt pc i = .inl out) : out ≠ .ok := by
  cases pc with
  | inc p => exact absurd h (by simp [portAt])
  | fixedPort p => exact absurd h (by simp [portAt])
  | unassigned =>
    unfold portAt at h
    cases h
    decide

lemma ipSetup_inl_ne_ok (args : Args) (out : Outcome)
    (h : ipSetup args = .inl out) : out ≠ .ok := by
  unfold ipSetup at h
  split at h
  · split at h
    · exact absurd h (by simp)
    · cases h; decide
  · split at h
    · split at h
      · exact absurd h (by simp)
      · cases h; decide
    · exact absurd h (by simp)

lemma genLoop_inc_ok (base : String) (pc : PortCfg) (sl : Int) (c : Bool) (L : Nat)
    (hpc : pc ≠ PortCfg.unassigned) :
    ∀ k i fs acc, L + i + k ≤ 256 →
      (genLoop (.inc base L) pc sl c k i fs acc).1 = Outcome.ok := by
  intro k
  induction k with
  | zero => intro i fs acc h; rfl
  | succ k ih =>
    intro i fs acc h
    have hov : ¬ (L + i > 255) := by omega
    cases pc with
    | unassigned => exact absurd rfl hpc
    | inc pbase =>
      simp only [genLoop, hostAt, hov, if_false, portAt]
      exact ih (i + 1) _ _ (by omega)
    | fixedPort p =>
      simp only [genLoop, hostAt, hov, if_false, portAt]
      exact ih (i + 1) _ _ (by omega)

lemma genLoop_inc_overflow (base : String) (pc : PortCfg) (sl : Int) (c : Bool) (L : Nat)
    (hpc : pc ≠ PortCfg.unassigned) :
    ∀ t i k fs acc, L + i + t = 256 → t < k →
      genLoop (.inc base L) pc sl c k i fs acc =
        (Outcome.exited "IP address range overflow for --ip-start",
         (genLoop (.inc base L) pc sl c t i fs acc).2) ∧
      (genLoop (.inc base L) pc sl c t i fs acc).1 = .ok := by
  intro t
  induction t with
  | zero =>
    intro i k fs acc h hk
    obtain ⟨r, rfl⟩ : ∃ r, k = r + 1 := ⟨k - 1, by omega⟩
    have hov : L + i > 255 := by omega
    constructor
    · simp only [genLoop, hostAt, hov, if_true, if_pos hov]
    · rfl
  | succ t ih =>
    intro i k fs acc h hk
    obtain ⟨r, rfl⟩ : ∃ r, k = r + 1 := ⟨k - 1, by omega⟩
    have hov : ¬ (L + i > 255) := by omega
    cases pc with
    | unassigned => exact absurd rfl hpc
    | inc pbase =>
      simp only [genLoop, hostAt, hov, if_false, portAt]
      exact ih (i + 1) r _ _ (by omega) (by omega)
    | fixedPort p =>
      simp only [genLoop, hostAt, hov, if_false, portAt]
      exact ih (i + 1) r _ _ (by omega) (by omega)

lemma genLoop_ok_names (ip : IpCfg) (pc : PortCfg) (sl : Int) (c : Bool) :
    ∀ k i fs acc fs2 devs, genLoop ip pc sl c k i fs acc = (.ok, fs2, devs) →
      devs.map DeviceTuple.name =
        acc.reverse.map DeviceTuple.name ++
          (List.range k).map (fun j => "Chisage " ++ natRepr (i + j + 1)) := by
  intro k
  induction k with
  | zero =>
    intro i fs acc fs2 devs h
    simp only [genLoop, Prod.mk.injEq] at h
    rw [← h.2.2]
    simp
  | succ k ih =>
    intro i fs acc fs2 devs h
    cases hh : hostAt ip i with
    | inl out =>
      simp only [genLoop, hh, Prod.mk.injEq] at h
      exact absurd h.1 (hostAt_inl_ne_ok ip i out hh)
    | inr host =>
      cases hp : portAt pc i with
      | inl out =>
        simp only [genLoop, hh, hp, Prod.mk.injEq] at h
        exact absurd h.1 (portAt_inl_ne_ok pc i out hp)
      | inr portVal =>
        simp only [genLoop, hh, hp] at h
        have hrec := ih (i + 1) _ _ _ _ h
        rw [hrec]
        have harg : ∀ j : Nat, i + 1 + j + 1 = i + (j + 1) + 1 := by omega
        simp only [List.reverse_cons, List.map_append, List.map_cons, List.map_nil,
          List.range_succ_eq_map, List.map_map, harg]
        simp [Function.comp_def]

/-- C7: a completed run derives exactly `count` device tuples, and the name
of instance `i` (0-based) is exactly the string `"Chisage "` followed by the
decimal representation of `i+1` (strictly sequential, 1-based). -/
theorem run_ok_sequential_names (args : Args) (fs fs2 : FS) (devs : List DeviceTuple)
    (h : run args fs = (.ok, fs2, devs)) :
    devs.length = args.count.toNat ∧
    devs.map DeviceTuple.name =
      (List.range args.count.toNat).map (fun i => "Chisage " ++ natRepr (i + 1)) := by
  unfold run at h
  split at h
  · rename_i out hip
    simp only [Prod.mk.injEq] at h
    exact absurd h.1 (ipSetup_inl_ne_ok args out hip)
  · rename_i ipCfg hip
    split at h
    · simp only [Prod.mk.injEq] at h
      exact absurd h.1 (by decide)
    · have hnames := genLoop_ok_names ipCfg (portSetup args) args.slaveId args.generateCards
        args.count.toNat 0 fs [] fs2 devs h
      simp only [List.reverse_nil, List.map_nil, List.nil_append, Nat.zero_add] at hnames
      refine ⟨?_, hnames⟩
      have := congrArg List.length hnames
      simpa using this

theorem run_ok_sequential_names_witness :
    (run { count := 2, ipStart := some "10.0.0.7", portStart := some 5000 }
        { registry := none, sensorFiles := [], cardFiles := [] }).2.2.length =
      (2 : Int).toNat ∧
    (run { count := 2, ipStart := some "10.0.0.7", portStart := some 5000 }
        { registry := none, sensorFiles := [], cardFiles := [] }).2.2.map DeviceTuple.name =
      (List.range (2 : Int).toNat).map (fun i => "Chisage " ++ natRepr (i + 1)) := by
  have h1 : (run { count := 2, ipStart := some "10.0.0.7", portStart := some 5000 }
      { registry := none, sensorFiles := [], cardFiles := [] }).1 = .ok := by rfl
  have h : run { count := 2, ipStart := some "10.0.0.7", portStart := some 5000 }
      { registry := none, sensorFiles := [], cardFiles := [] } =
      (.ok,
       (run { count := 2, ipStart := some "10.0.0.7", portStart := some 5000 }
         { registry := none, sensorFiles := [], cardFiles := [] }).2.1,
       (run { count := 2, ipStart := some "10.0.0.7", portStart := some 5000 }
         { registry := none, sensorFiles := [], cardFiles := [] }).2.2) := by
    rw [← h1]
  exact run_ok_sequential_names _ _ _ _ h

/-- C6: an invocation whose provided IP flag is malformed (not exactly 4
dot-separated octets each in [0,255]) or whose count is non-positive never
completes normally and touches no file: the run ends with a non-success exit
(the validation `exit(1)` after a printed message, or — for the empty-string
IP edge case that truthiness skips past validation — an unhandled `NameError`
whose traceback Python prints), with the file system unchanged: no sensor
file, card file or registry write occurs. -/
theorem invalid_args_abort_before_files (args : Args) (fs : FS)
    (h : (∃ s, ((args.ipStart = some s ∧ args.ipFixed = none) ∨
                (args.ipStart = none ∧ args.ipFixed = some s)) ∧ parseIp s = none) ∨
         args.count ≤ 0) :
    (run args fs).1 ≠ .ok ∧ (run args fs).2.1 = fs := by
  rcases h with ⟨s, hs, hps⟩ | hc
  · rcases hs with ⟨h1, h2⟩ | ⟨h1, h2⟩
    · by_cases hse : s = ""
      · subst hse
        have hip : ipSetup args = .inr .unassigned := by
          simp [ipSetup, h1, h2, truthyStr]
        by_cases hcnt : args.count ≤ 0
        · simp only [run, hip]
          rw [if_pos hcnt]
          exact ⟨fun hcon => Outcome.noConfusion hcon, by trivial⟩
        · obtain ⟨m, hm⟩ : ∃ m, args.count.toNat = m + 1 :=
            ⟨args.count.toNat - 1, by omega⟩
          simp only [run, hip]
          rw [if_neg hcnt, hm]
          have hred : genLoop IpCfg.unassigned (portSetup args) args.slaveId
              args.generateCards (m + 1) 0 fs [] =
              (.crashed "NameError: fixed_ip_str", fs, []) := rfl
          rw [hred]
          constructor
          · intro hcon
            exact Outcome.noConfusion hcon
          · rfl
      · have hip : ipSetup args = .inl (.exited "Invalid IP address format for --ip-start") := by
          simp [ipSetup, h1, truthyStr, hse, hps]
        simp only [run, hip]
        exact ⟨fun hcon => Outcome.noConfusion hcon, by trivial⟩
    · by_cases hse : s = ""
      · subst hse
        have hip : ipSetup args = .inr .unassigned := by
          simp [ipSetup, h1, h2, truthyStr]
        by_cases hcnt : args.count ≤ 0
        · simp only [run, hip]
          rw [if_pos hcnt]
          exact ⟨fun hcon => Outcome.noConfusion hcon, by trivial⟩
        · obtain ⟨m, hm⟩ : ∃ m, args.count.toNat = m + 1 :=
            ⟨args.count.toNat - 1, by omega⟩
          simp only [run, hip]
          rw [if_neg hcnt, hm]
          have hred : genLoop IpCfg.unassigned (portSetup args) args.slaveId
              args.generateCards (m + 1) 0 fs [] =
              (.crashed "NameError: fixed_ip_str", fs, []) := rfl
          rw [hred]
          constructor
          · intro hcon
            exact Outcome.noConfusion hcon
          · rfl
      · have hip : ipSetup args = .inl (.exited "Invalid IP address format for --ip-fixed") := by
          simp [ipSetup, h1, h2, truthyStr, hse, hps]
        simp only [run, hip]
        exact ⟨fun hcon => Outcome.noConfusion hcon, by trivial⟩
  · unfold run
    split
    · rename_i out hip
      exact ⟨ipSetup_inl_ne_ok args out hip, rfl⟩
    · split
      · exact ⟨fun hcon => Outcome.noConfusion hcon, rfl⟩
      · rename_i hcc
        exact absurd hc hcc

theorem invalid_args_abort_before_files_witness :
    ((∃ s, (((some "1.2.3" : Option String) = some s ∧ (none : Option String) = none) ∨
            ((some "1.2.3" : Option String) = none ∧ (none : Option String) = some s)) ∧
       parseIp s = none) ∨ (1 : Int) ≤ 0) ∧
    ((run { count := 1, ipStart := some "1.2.3", portFixed := some 502 }
        { registry := none, sensorFiles := [], cardFiles := [] }).1 ≠ .ok ∧
     (run { count := 1, ipStart := some "1.2.3", portFixed := some 502 }
        { registry := none, sensorFiles := [], cardFiles := [] }).2.1 =
       { registry := none, sensorFiles := [], cardFiles := [] }) :=
  ⟨Or.inl ⟨"1.2.3", Or.inl ⟨rfl, rfl⟩, by decide⟩,
   invalid_args_abort_before_files _ _ (Or.inl ⟨"1.2.3", Or.inl ⟨rfl, rfl⟩, by decide⟩)⟩

/-- C9: a port flag given as 0 passes no validation and selects no port
mode (both branches test Python truthiness, which 0 fails), so the port
variable is never assigned and — for any count at least 1 and valid IP
arguments — the first loop iteration crashes with an unhandled `NameError`
at the first use of the port variable, before any file is written. -/
theorem port_zero_truthiness_crash (args : Args) (fs : FS)
    (hip : (∃ s b L, args.ipStart = some s ∧ parseIp s = some (b, L)) ∨
           (args.ipStart = none ∧ ∃ s x, args.ipFixed = some s ∧ parseIp s = some x))
    (hport : (args.portStart = some 0 ∧ args.portFixed = none) ∨
             (args.portStart = none ∧ args.portFixed = some 0))
    (hcount : 1 ≤ args.count) :
    (run args fs).1 = .crashed "NameError: port_to_process" ∧
    (run args fs).2.1 = fs := by
  have hpc : portSetup args = .unassigned := by
    rcases hport with ⟨h1, h2⟩ | ⟨h1, h2⟩ <;> simp [portSetup, h1, h2, truthyInt]
  obtain ⟨m, hm⟩ : ∃ m, args.count.toNat = m + 1 := ⟨args.count.toNat - 1, by omega⟩
  have hc' : ¬ (args.count ≤ 0) := by omega
  rcases hip with ⟨s, b, L, h1, h2⟩ | ⟨h0, s, x, h1, h2⟩
  · have hse : s ≠ "" := by
      intro he
      rw [he] at h2
      exact Option.noConfusion (parseIp_empty ▸ h2)
    have hips : ipSetup args = .inr (.inc b L) := by
      simp [ipSetup, h1, truthyStr, hse, h2]
    have hL : L ≤ 255 := parseIp_lastOctet_le s b L h2
    have hov : ¬ (L + 0 > 255) := by omega
    have hred : hostAt (IpCfg.inc b L) 0 = .inr (b ++ "." ++ natRepr (L + 0)) := by
      simp only [hostAt]
      rw [if_neg hov]
    simp only [run, hips]
    rw [if_neg hc', hpc, hm]
    rw [show genLoop (IpCfg.inc b L) PortCfg.unassigned args.slaveId args.generateCards
        (m + 1) 0 fs [] = (.crashed "NameError: port_to_process", fs, []) from by
      simp only [genLoop, hred, portAt, List.reverse_nil]]
    exact ⟨rfl, rfl⟩
  · have hse : s ≠ "" := by
      intro he
      rw [he] at h2
      exact Option.noConfusion (parseIp_empty ▸ h2)
    have hips : ipSetup args = .inr (.fixedIp s) := by
      simp [ipSetup, h0, h1, truthyStr, hse, h2]
    simp only [run, hips]
    rw [if_neg hc', hpc, hm]
    rw [show genLoop (IpCfg.fixedIp s) PortCfg.unassigned args.slaveId args.generateCards
        (m + 1) 0 fs [] = (.crashed "NameError: port_to_process", fs, []) from by
      simp only [genLoop, hostAt, portAt, List.reverse_nil]]
    exact ⟨rfl, rfl⟩

theorem port_zero_truthiness_crash_witness :
    ((∃ s b L, (some "10.0.0.7" : Option String) = some s ∧ parseIp s = some (b, L)) ∨
       ((some "10.0.0.7" : Option String) = none ∧
        ∃ s x, (none : Option String) = some s ∧ parseIp s = some x)) ∧
    (((some (0 : Int) : Option Int) = some 0 ∧ (none : Option Int) = none) ∨
       ((some (0 : Int) : Option Int) = none ∧ (none : Option Int) = some 0)) ∧
    (1 : Int) ≤ 1 ∧
    ((run { count := 1, ipStart := some "10.0.0.7", portStart := some 0 }
        { registry := none, sensorFiles := [], cardFiles := [] }).1 =
       .crashed "NameError: port_to_process" ∧
     (run { count := 1, ipStart := some "10.0.0.7", portStart := some 0 }
        { registry := none, sensorFiles := [], cardFiles := [] }).2.1 =
       { registry := none, sensorFiles := [], cardFiles := [] }) :=
  ⟨Or.inl ⟨"10.0.0.7", "10.0.0", 7, rfl, by decide⟩,
   Or.inl ⟨rfl, rfl⟩, by decide,
   port_zero_truthiness_crash _ _ (Or.inl ⟨"10.0.0.7", "10.0.0", 7, rfl, by decide⟩)
     (Or.inl ⟨rfl, rfl⟩) (by decide)⟩

/-- C1 counterexample: `--ip-start 192.168.1.255 --port-fixed 502 --count 2`
on an empty directory does fail with the IP-overflow `exit(1)` (255 + 1 >
255 at run index 1), but only after instance 0 has already written its
sensor file and rewritten the hub registry — refuting the claim that a
failing run aborts before writing any file, with no sensor file written and
the registry unchanged. -/
theorem incremental_overflow_counterexample :
    (run { count := 2, ipStart := some "192.168.1.255", portFixed := some 502 }
        { registry := none, sensorFiles := [], cardFiles := [] }).1 =
      .exited "IP address range overflow for --ip-start" ∧
    (run { count := 2, ipStart := some "192.168.1.255", portFixed := some 502 }
        { registry := none, sensorFiles := [], cardFiles := [] }).2.1.sensorFiles.map Prod.fst =
      ["chisage/chisage_1_sensors.yaml"] ∧
    (run { count := 2, ipStart := some "192.168.1.255", portFixed := some 502 }
        { registry := none, sensorFiles := [], cardFiles := [] }).2.1.registry.isSome = true :=
  ⟨rfl, rfl, rfl⟩

/-- C1 (amended): in incremental IP mode with a validated start address
whose last octet is `L`, a port mode actually selected and `count ≥ 1`, the
run fails with the IP-overflow `exit(1)` if and only if
`L + (count-1) > 255`; but on failure the abort happens only before the
files of the first overflowing instance (run index `256-L`): the sensor
files and registry upserts of the `256-L ≥ 1` preceding instances have
already been performed, the final file-system state being exactly the one
the generation loop produces after those instances. -/
theorem incremental_overflow_boundary (args : Args) (fs : FS) (s base : String) (L : Nat)
    (hip : args.ipStart = some s) (hps : parseIp s = some (base, L))
    (hpc : portSetup args ≠ .unassigned)
    (hcount : 1 ≤ args.count) :
    ((run args fs).1 = .exited "IP address range overflow for --ip-start" ↔
       255 < L + (args.count.toNat - 1)) ∧
    (255 < L + (args.count.toNat - 1) →
       run args fs =
         (.exited "IP address range overflow for --ip-start",
          (genLoop (.inc base L) (portSetup args) args.slaveId args.generateCards
             (256 - L) 0 fs []).2) ∧
       (genLoop (.inc base L) (portSetup args) args.slaveId args.generateCards
          (256 - L) 0 fs []).1 = .ok ∧
       1 ≤ 256 - L) := by
  have hse : s ≠ "" := by
    intro he
    rw [he] at hps
    exact Option.noConfusion (parseIp_empty ▸ hps)
  have hips : ipSetup args = .inr (.inc base L) := by
    simp [ipSetup, hip, truthyStr, hse, hps]
  have hc' : ¬ (args.count ≤ 0) := by omega
  have hL : L ≤ 255 := parseIp_lastOctet_le s base L hps
  have hcn : 1 ≤ args.count.toNat := by omega
  have hrun : run args fs = genLoop (.inc base L) (portSetup args) args.slaveId
      args.generateCards args.count.toNat 0 fs [] := by
    simp only [run, hips]
    rw [if_neg hc']
  rw [hrun]
  by_cases hov : 255 < L + (args.count.toNat - 1)
  · have hmain := genLoop_inc_overflow base (portSetup args) args.slaveId args.generateCards L hpc
      (256 - L) 0 args.count.toNat fs [] (by omega) (by omega)
    refine ⟨⟨fun _ => hov, fun _ => ?_⟩, fun _ => ⟨hmain.1, hmain.2, by omega⟩⟩
    rw [hmain.1]
  · have hok := genLoop_inc_ok base (portSetup args) args.slaveId args.generateCards L hpc
      args.count.toNat 0 fs [] (by omega)
    exact ⟨⟨fun hcontra => absurd (hok.symm.trans hcontra) (by decide),
            fun hcontra => absurd hcontra hov⟩,
           fun hcontra => absurd hcontra hov⟩

theorem incremental_overflow_boundary_witness :
    ((some "192.168.1.254" : Option String) = some "192.168.1.254" ∧
     parseIp "192.168.1.254" = some ("192.168.1", 254) ∧
     portSetup { count := 3, ipStart := some "192.168.1.254", portStart := some 5000 } ≠
       .unassigned ∧
     (1 : Int) ≤ 3) ∧
    (((run { count := 3, ipStart := some "192.168.1.254", portStart := some 5000 }
         { registry := none, sensorFiles := [], cardFiles := [] }).1 =
        .exited "IP address range overflow for --ip-start" ↔
        255 < 254 + ((3 : Int).toNat - 1)) ∧
     (255 < 254 + ((3 : Int).toNat - 1) →
        run { count := 3, ipStart := some "192.168.1.254", portStart := some 5000 }
          { registry := none, sensorFiles := [], cardFiles := [] } =
          (.exited "IP address range overflow for --ip-start",
           (genLoop (.inc "192.168.1" 254)
              (portSetup { count := 3, ipStart := some "192.168.1.254", portStart := some 5000 })
              1 false (256 - 254) 0
              { registry := none, sensorFiles := [], cardFiles := [] } []).2) ∧
        (genLoop (.inc "192.168.1" 254)
           (portSetup { count := 3, ipStart := some "192.168.1.254", portStart := some 5000 })
           1 false (256 - 254) 0
           { registry := none, sensorFiles := [], cardFiles := [] } []).1 = .ok ∧
        1 ≤ 256 - 254)) :=
  ⟨⟨rfl, by decide, by decide, by decide⟩,
   incremental_overflow_boundary _ _ "192.168.1.254" "192.168.1" 254 rfl (by decide)
     (by decide) (by decide)⟩

/-! ### Scalar emission and parsing lemmas -/

lemma allImp (p q : Char → Bool) (cs : List Char) (h : cs.all p = true)
    (himp : ∀ c, p c = true → q c = true) : cs.all q = true := by
  simp only [List.all_eq_true] at h ⊢
  exact fun c hc => himp c (h c hc)

lemma digitChar_isDigit (d : Nat) (h : d < 10) : (Nat.digitChar d).isDigit = true := by
  interval_cases d <;> decide

lemma digitChar_toNat (d : Nat) (h : d < 10) : (Nat.digitChar d).toNat - 48 = d := by
  interval_cases d <;> decide

lemma parseNatDigits_append (xs : List Char) (c : Char) :
    parseNatDigits (xs ++ [c]) = 10 * parseNatDigits xs + (c.toNat - 48) := by
  simp [parseNatDigits, List.foldl_append]

lemma natReprAux_spec : ∀ f n, n < f →
    natReprAux f n ≠ [] ∧ (natReprAux f n).all Char.isDigit = true ∧
    parseNatDigits (natReprAux f n) = n := by
  intro f
  induction f with
  | zero => intro n h; omega
  | succ f ih =>
    intro n h
    by_cases h10 : n < 10
    · refine ⟨by simp [natReprAux, h10], ?_, ?_⟩
      · simp [natReprAux, h10, digitChar_isDigit n h10]
      · simp [natReprAux, h10, parseNatDigits, digitChar_toNat n h10]
    · have hdiv : n / 10 < f := by omega
      obtain ⟨hne, hdig, hval⟩ := ih (n / 10) hdiv
      have hmod : n % 10 < 10 := Nat.mod_lt n (by omega)
      refine ⟨by simp [natReprAux, h10], ?_, ?_⟩
      · simp only [natReprAux, h10, if_false, List.all_append, List.all_cons, List.all_nil,
          Bool.and_eq_true]
        exact ⟨hdig, digitChar_isDigit (n % 10) hmod, by trivial⟩
      · simp only [natReprAux, h10, if_false]
        rw [parseNatDigits_append, hval, digitChar_toNat (n % 10) hmod]
        omega

lemma natReprAux_length_le : ∀ f n e, n < f → n < 10 ^ e → 1 ≤ e →
    (natReprAux f n).length ≤ e := by
  intro f
  induction f with
  | zero => intro n e h; omega
  | succ f ih =>
    intro n e h hpow he
    by_cases h10 : n < 10
    · simp only [natReprAux, h10, if_true, List.length_cons, List.length_nil]
      omega
    · have he2 : 2 ≤ e := by
        by_contra hcon
        have he1 : e = 1 := by omega
        subst he1
        simp only [pow_one] at hpow
        omega
      have hdiv : n / 10 < f := by omega
      have hdivpow : n / 10 < 10 ^ (e - 1) := by
        have h1 : (10 : Nat) ^ e = 10 ^ (e - 1) * 10 := by
          have h2 : e = (e - 1) + 1 := by omega
          calc (10 : Nat) ^ e = 10 ^ ((e - 1) + 1) := by rw [← h2]
          _ = 10 ^ (e - 1) * 10 := pow_succ 10 (e - 1)
        rw [Nat.div_lt_iff_lt_mul (by omega)]
        omega
      have hrec := ih (n / 10) (e - 1) hdiv hdivpow (by omega)
      simp only [natReprAux, h10, if_false, List.length_append, List.length_cons,
        List.length_nil]
      omega

lemma parseNatDigits_replicate_zero (k : Nat) (ds : List Char) :
    parseNatDigits (List.replicate k '0' ++ ds) = parseNatDigits ds := by
  induction k with
  | zero => simp
  | succ k ih =>
    simp only [List.replicate_succ, List.cons_append]
    have hz : parseNatDigits ('0' :: (List.replicate k '0' ++ ds)) =
        List.foldl (fun a c => 10 * a + (c.toNat - 48)) 0 (List.replicate k '0' ++ ds) := by
      simp [parseNatDigits]
    rw [hz]
    exact ih

lemma splitOnChar_ne_nil (sep : Char) (cs : List Char) : splitOnChar sep cs ≠ [] := by
  cases cs with
  | nil => simp [splitOnChar]
  | cons c rest =>
    simp only [splitOnChar]
    split
    · simp
    · split <;> simp

lemma splitOnChar_of_no_sep (sep : Char) :
    ∀ cs : List Char, (∀ c ∈ cs, c ≠ sep) → splitOnChar sep cs = [cs] := by
  intro cs
  induction cs with
  | nil => intro h; rfl
  | cons c rest ih =>
    intro h
    have hrest := ih (fun x hx => h x (List.mem_cons_of_mem c hx))
    simp only [splitOnChar, hrest]
    rw [if_neg (h c (List.mem_cons_self c rest))]

lemma splitOnChar_append_sep (sep : Char) (a b : List Char)
    (ha : ∀ c ∈ a, c ≠ sep) :
    splitOnChar sep (a ++ sep :: b) = a :: splitOnChar sep b := by
  induction a with
  | nil =>
    simp only [List.nil_append, splitOnChar]
    cases hsp : splitOnChar sep b with
    | nil => exact absurd hsp (splitOnChar_ne_nil sep b)
    | cons g gs => simp
  | cons c rest ih =>
    have hrest := ih (fun x hx => ha x (List.mem_cons_of_mem c hx))
    simp only [List.cons_append, splitOnChar, List.append_eq, hrest]
    rw [if_neg (ha c (List.mem_cons_self c rest))]

lemma escSQ_cons_quote (rest : List Char) :
    escSQ ('\'' :: rest) = '\'' :: '\'' :: escSQ rest := by
  simp [escSQ]

lemma escSQ_cons_other (c : Char) (rest : List Char) (hc : c ≠ '\'') :
    escSQ (c :: rest) = c :: escSQ rest := by
  simp [escSQ, hc]

lemma unquoteSQ_escSQ (cs : List Char) : unquoteSQ (escSQ cs ++ ['\'']) = some cs := by
  induction cs with
  | nil => rfl
  | cons c rest ih =>
    by_cases hc : c = '\''
    · subst hc
      rw [escSQ_cons_quote, List.cons_append, List.cons_append]
      simp [unquoteSQ, ih]
    · rw [escSQ_cons_other c rest hc, List.cons_append]
      rw [unquoteSQ.eq_def]
      simp [hc, ih]

/-- Parsing a single-quoted scalar recovers the string, for every string. -/
lemma quoted_parse (s : String) : parseScalarChars (sQuoteChars s.data) = some (.str s) := by
  simp only [sQuoteChars, parseScalarChars, List.head?, List.tail]
  rw [if_pos trivial, unquoteSQ_escSQ]
  rfl

lemma isDigit_ne (c : Char) (h : c.isDigit = true) :
    c ≠ '!' ∧ c ≠ '\'' ∧ c ≠ '-' ∧ c ≠ '\n' ∧ c ≠ ':' ∧ c ≠ '.' := by
  refine ⟨?_, ?_, ?_, ?_, ?_, ?_⟩ <;>
    first
    | (intro he; subst he; exact absurd h (by decide))

lemma allowedPlain_ne (c : Char) (h : allowedPlainChar c = true) :
    c ≠ '!' ∧ c ≠ '\'' ∧ c ≠ '\n' ∧ c ≠ ':' := by
  refine ⟨?_, ?_, ?_, ?_⟩ <;>
    first
    | (intro he; subst he; exact absurd h (by decide))

lemma printable_ne (c : Char) (h : printableAscii c = true) : c ≠ '\n' := by
  intro he
  subst he
  exact absurd h (by decide)

lemma isDigit_ne_dq (c : Char) (h : c.isDigit = true) : c ≠ '"' := by
  intro he
  subst he
  exact absurd h (by decide)

lemma allowedPlain_ne_dq (c : Char) (h : allowedPlainChar c = true) : c ≠ '"' := by
  intro he
  subst he
  exact absurd h (by decide)

lemma not_include_pre (c : Char) (rest : List Char) (hc : c ≠ '!') :
    ("!include ").data.isPrefixOf (c :: rest) = false := by
  have hdata : ("!include ").data = '!' :: ("include ").data := rfl
  rw [hdata]
  simp only [List.isPrefixOf]
  rw [beq_eq_false_iff_ne.mpr (fun he => hc he.symm)]
  rfl

lemma looksInt_of_digits (c : Char) (rest : List Char)
    (hdig : (c :: rest).all Char.isDigit = true) :
    looksLikeIntChars (c :: rest) = true := by
  have hc : c.isDigit = true := by
    simp only [List.all_cons, Bool.and_eq_true] at hdig
    exact hdig.1
  simp [looksLikeIntChars, (isDigit_ne c hc).2.2.1, hdig]

/-- Parsing the decimal representation of an integer recovers it. -/
lemma intRepr_parse (n : Int) : parseScalarChars (intRepr n).data = some (.int n) := by
  by_cases hn : n < 0
  · have hdata : (intRepr n).data = '-' :: natReprAux (n.natAbs + 1) n.natAbs := by
      simp [intRepr, hn]
    obtain ⟨hne, hdig, hval⟩ := natReprAux_spec (n.natAbs + 1) n.natAbs (by omega)
    rw [hdata]
    simp only [parseScalarChars, List.head?]
    rw [if_neg (by simp)]
    rw [if_neg (by simp)]
    rw [not_include_pre '-' _ (by decide)]
    rw [if_neg (by simp)]
    have hint : looksLikeIntChars ('-' :: natReprAux (n.natAbs + 1) n.natAbs) = true := by
      simp [looksLikeIntChars, hne, hdig]
    rw [if_pos hint]
    have hpi : parseIntChars ('-' :: natReprAux (n.natAbs + 1) n.natAbs) =
        -(parseNatDigits (natReprAux (n.natAbs + 1) n.natAbs) : Int) := by
      simp [parseIntChars]
    rw [hpi, hval]
    have hfin : -((n.natAbs : Nat) : Int) = n := by omega
    rw [hfin]
  · have hdata : (intRepr n).data = natReprAux (n.natAbs + 1) n.natAbs := by
      simp [intRepr, hn, natRepr]
    obtain ⟨hne, hdig, hval⟩ := natReprAux_spec (n.natAbs + 1) n.natAbs (by omega)
    rw [hdata]
    cases hcs : natReprAux (n.natAbs + 1) n.natAbs with
    | nil => exact absurd hcs hne
    | cons c rest =>
      rw [hcs] at hdig hval
      have hc : c.isDigit = true := by
        simp only [List.all_cons, Bool.and_eq_true] at hdig
        exact hdig.1
      simp only [parseScalarChars, List.head?]
      rw [if_neg (by simp [(isDigit_ne c hc).2.1])]
      rw [if_neg (by simp [isDigit_ne_dq c hc])]
      rw [not_include_pre c _ (isDigit_ne c hc).1]
      rw [if_neg (by simp)]
      rw [if_pos (looksInt_of_digits c rest hdig)]
      have hpi : parseIntChars (c :: rest) = ((parseNatDigits (c :: rest) : Nat) : Int) := by
        simp [parseIntChars, (isDigit_ne c hc).2.2.1]
      rw [hpi, hval]
      have hfin : ((n.natAbs : Nat) : Int) = n := by omega
      rw [hfin]

/-- Parsing the decimal representation of a float recovers it. -/
lemma decChars_parse (d : Dec) (he : 1 ≤ d.e) :
    parseScalarChars (decChars d) = some (.float d) := by
  obtain ⟨hneA, hdigA, hvalA⟩ :=
    natReprAux_spec (d.m / 10 ^ d.e + 1) (d.m / 10 ^ d.e) (by omega)
  obtain ⟨hneB, hdigB, hvalB⟩ :=
    natReprAux_spec (d.m % 10 ^ d.e + 1) (d.m % 10 ^ d.e) (by omega)
  set A := natReprAux (d.m / 10 ^ d.e + 1) (d.m / 10 ^ d.e) with hA
  set B0 := natReprAux (d.m % 10 ^ d.e + 1) (d.m % 10 ^ d.e) with hB0
  have hlenB0 : B0.length ≤ d.e :=
    natReprAux_length_le _ _ _ (by omega) (Nat.mod_lt _ (by positivity)) he
  have hP : padZeros d.e B0 = List.replicate (d.e - B0.length) '0' ++ B0 := rfl
  have hdigP : (padZeros d.e B0).all Char.isDigit = true := by
    rw [hP]
    simp only [List.all_append, Bool.and_eq_true]
    refine ⟨?_, hdigB⟩
    simp only [List.all_eq_true]
    intro c hc
    rw [List.eq_of_mem_replicate hc]
    decide
  have hlenP : (padZeros d.e B0).length = d.e := by
    rw [hP]
    simp only [List.length_append, List.length_replicate]
    omega
  have hvalP : parseNatDigits (padZeros d.e B0) = d.m % 10 ^ d.e := by
    rw [hP, parseNatDigits_replicate_zero, hvalB]
  have hneP : padZeros d.e B0 ≠ [] := by
    intro hcon
    have hlen0 := congrArg List.length hcon
    rw [hlenP] at hlen0
    simp at hlen0
    omega
  have hnodotA : ∀ c ∈ A, c ≠ '.' := by
    intro c hc
    exact (isDigit_ne c ((List.all_eq_true.mp hdigA) c hc)).2.2.2.2.2
  have hnodotP : ∀ c ∈ padZeros d.e B0, c ≠ '.' := by
    intro c hc
    exact (isDigit_ne c ((List.all_eq_true.mp hdigP) c hc)).2.2.2.2.2
  have hsplit : splitOnChar '.' (decChars d) = [A, padZeros d.e B0] := by
    show splitOnChar '.' (A ++ '.' :: padZeros d.e B0) = _
    rw [splitOnChar_append_sep '.' A _ hnodotA,
        splitOnChar_of_no_sep '.' _ hnodotP]
  have hfl : looksLikeFloatChars (decChars d) = true := by
    simp only [looksLikeFloatChars, hsplit]
    simp [hneA, hneP, hdigA, hdigP]
  cases hcs : A with
  | nil => exact absurd hcs hneA
  | cons c rest =>
    have hc : c.isDigit = true := by
      rw [hcs] at hdigA
      simp only [List.all_cons, Bool.and_eq_true] at hdigA
      exact hdigA.1
    have hdec : decChars d = c :: (rest ++ '.' :: padZeros d.e B0) := by
      show A ++ '.' :: padZeros d.e B0 = _
      rw [hcs]
      rfl
    rw [hdec]
    simp only [parseScalarChars, List.head?]
    rw [if_neg (by simp [(isDigit_ne c hc).2.1])]
    rw [if_neg (by simp [isDigit_ne_dq c hc])]
    rw [not_include_pre c _ (isDigit_ne c hc).1]
    rw [if_neg (by simp)]
    have hint : looksLikeIntChars (c :: (rest ++ '.' :: padZeros d.e B0)) = false := by
      simp only [looksLikeIntChars]
      rw [if_neg (isDigit_ne c hc).2.2.1]
      cases hall : (c :: (rest ++ '.' :: padZeros d.e B0)).all Char.isDigit with
      | false => rfl
      | true => exact absurd ((List.all_eq_true.mp hall) '.' (by simp)) (by decide)
    rw [if_neg (by simp [hint])]
    rw [← hdec, if_pos hfl, hsplit]
    show some (Yaml.float ⟨parseNatDigits A * 10 ^ (padZeros d.e B0).length +
        parseNatDigits (padZeros d.e B0), (padZeros d.e B0).length⟩) =
      some (Yaml.float d)
    rw [hvalA, hvalP, hlenP]
    have hm : d.m / 10 ^ d.e * 10 ^ d.e + d.m % 10 ^ d.e = d.m := by
      rw [Nat.mul_comm]
      exact Nat.div_add_mod d.m (10 ^ d.e)
    rw [hm]

/-- Parsing a plain-safe scalar yields it back as a string. -/
lemma plain_parse (s : String) (h : plainSafe s.data = true) :
    parseScalarChars s.data = some (.str s) := by
  have hps := h
  simp only [plainSafe, Bool.and_eq_true, Bool.not_eq_true'] at hps
  have hne := hps.1.1.1.1.1
  have hall := hps.1.1.1.1.2
  have hint := hps.1.1.2
  have hfl := hps.1.2
  obtain ⟨c0, rest, hcs⟩ : ∃ c0 rest, s.data = c0 :: rest := by
    have hnil : s.data ≠ [] := by
      intro hnil
      rw [hnil] at hne
      simp at hne
    obtain ⟨a, t, ht⟩ := List.exists_cons_of_ne_nil hnil
    exact ⟨a, t, ht⟩
  have hc0 : allowedPlainChar c0 = true := by
    rw [hcs] at hall
    simp only [List.all_cons, Bool.and_eq_true] at hall
    exact hall.1
  obtain ⟨hq1, hq2, _, _⟩ := allowedPlain_ne c0 hc0
  rw [hcs] at hint hfl
  rw [hcs]
  simp only [parseScalarChars, List.head?]
  rw [if_neg (by simp [hq2])]
  rw [if_neg (by simp [allowedPlain_ne_dq c0 hc0])]
  rw [not_include_pre c0 rest hq1]
  rw [if_neg (by simp)]
  rw [if_neg (by simp [hint])]
  rw [if_neg (by simp [hfl])]
  rw [← hcs]

lemma hexVal_hexDigitChar (n : Nat) (h : n < 16) :
    hexVal (hexDigitChar n) = some n := by
  interval_cases n <;> decide

lemma hexDigitChar_ne_nl (n : Nat) (h : n < 16) : hexDigitChar n ≠ '\n' := by
  interval_cases n <;> decide

lemma escDQ_cons (c : Char) (cs : List Char) :
    escDQ (c :: cs) =
      (if c.toNat ≤ 126 then [c]
       else ['\\', 'x', hexDigitChar (c.toNat / 16), hexDigitChar (c.toNat % 16)]) ++
        escDQ cs := by
  simp [escDQ]

lemma dqOk_cases (c : Char) (h : dqOkChar c = true) :
    (printableAscii c = true ∧ c ≠ '"' ∧ c ≠ '\\') ∨
    (128 ≤ c.toNat ∧ c.toNat ≤ 255) := by
  simp only [dqOkChar, Bool.or_eq_true, Bool.and_eq_true] at h
  rcases h with h | h
  · exact Or.inl ⟨h.1.1, by simpa using h.1.2, by simpa using h.2⟩
  · exact Or.inr ⟨by simpa using h.1, by simpa using h.2⟩

lemma unescDQ_esc_eq (f : Nat) (u v : Char) (a b : Nat) (hu : hexVal u = some a)
    (hv : hexVal v = some b) (L : List Char) :
    unescDQ (f + 1) ('\\' :: 'x' :: u :: v :: L) =
      (unescDQ f L).map (fun out => Char.ofNat (16 * a + b) :: out) := by
  simp [unescDQ, hu, hv]

/-- Unescaping inverts double-quoted escaping on the supported domain. -/
lemma unescDQ_escDQ (cs : List Char) (h : ∀ c ∈ cs, dqOkChar c = true) :
    ∀ fuel, (escDQ cs).length + 1 ≤ fuel →
      unescDQ fuel (escDQ cs ++ ['"']) = some cs := by
  induction cs with
  | nil =>
    intro fuel hf
    obtain ⟨f, rfl⟩ : ∃ f, fuel = f + 1 := ⟨fuel - 1, by omega⟩
    rfl
  | cons c cs ih =>
    intro fuel hf
    have hc := h c (List.mem_cons_self _ _)
    have hcs := fun x hx => h x (List.mem_cons_of_mem c hx)
    rcases dqOk_cases c hc with ⟨hpr, hnq, hnb⟩ | ⟨hlo, hhi⟩
    · have hle : c.toNat ≤ 126 := by
        simp only [printableAscii, Bool.and_eq_true] at hpr
        exact by simpa using hpr.2
      have hesc : escDQ (c :: cs) = c :: escDQ cs := by
        rw [escDQ_cons, if_pos hle]
        rfl
      rw [hesc] at hf ⊢
      obtain ⟨f, rfl⟩ : ∃ f, fuel = f + 1 := ⟨fuel - 1, by omega⟩
      have hih := ih hcs f (by simp only [List.length_cons] at hf; omega)
      show unescDQ (f + 1) (c :: (escDQ cs ++ ['"'])) = some (c :: cs)
      simp only [unescDQ]
      rw [if_neg hnq, if_neg hnb, hih]
      rfl
    · have hle : ¬ c.toNat ≤ 126 := by omega
      have hesc : escDQ (c :: cs) =
          '\\' :: 'x' :: hexDigitChar (c.toNat / 16) :: hexDigitChar (c.toNat % 16) ::
            escDQ cs := by
        rw [escDQ_cons, if_neg hle]
        rfl
      rw [hesc] at hf ⊢
      obtain ⟨f, rfl⟩ : ∃ f, fuel = f + 1 := ⟨fuel - 1, by omega⟩
      have h1 := hexVal_hexDigitChar (c.toNat / 16) (by omega)
      have h2 := hexVal_hexDigitChar (c.toNat % 16) (by omega)
      have hih := ih hcs f (by simp only [List.length_cons] at hf; omega)
      show unescDQ (f + 1) ('\\' :: 'x' :: hexDigitChar (c.toNat / 16) ::
          hexDigitChar (c.toNat % 16) :: (escDQ cs ++ ['"'])) = some (c :: cs)
      rw [unescDQ_esc_eq f _ _ _ _ h1 h2, hih]
      have hchar : Char.ofNat (16 * (c.toNat / 16) + c.toNat % 16) = c := by
        rw [Nat.div_add_mod]
        exact Char.ofNat_toNat c
      simp [hchar]

lemma escDQ_no_newline (cs : List Char) (h : ∀ x ∈ cs, dqOkChar x = true) :
    ∀ c ∈ escDQ cs, c ≠ '\n' := by
  induction cs with
  | nil => intro c hc; simp [escDQ] at hc
  | cons x rest ih =>
    intro c hc
    rw [escDQ_cons] at hc
    rcases dqOk_cases x (h x (List.mem_cons_self _ _)) with ⟨hpr, _, _⟩ | ⟨hlo, hhi⟩
    · have hle : x.toNat ≤ 126 := by
        simp only [printableAscii, Bool.and_eq_true] at hpr
        simpa using hpr.2
      rw [if_pos hle] at hc
      simp only [List.cons_append, List.nil_append, List.mem_cons] at hc
      rcases hc with hc | hc
      · subst hc; exact printable_ne _ hpr
      · exact ih (fun y hy => h y (List.mem_cons_of_mem x hy)) c hc
    · have hle : ¬ x.toNat ≤ 126 := by omega
      rw [if_neg hle] at hc
      simp only [List.cons_append, List.nil_append, List.mem_cons] at hc
      rcases hc with hc | hc | hc | hc | hc
      · subst hc; decide
      · subst hc; decide
      · subst hc; exact hexDigitChar_ne_nl _ (by omega)
      · subst hc; exact hexDigitChar_ne_nl _ (by omega)
      · exact ih (fun y hy => h y (List.mem_cons_of_mem x hy)) c hc

lemma dquoted_parse (s : String) (h : s.data.all dqOkChar = true) :
    parseScalarChars (dQuoteChars s.data) = some (.str s) := by
  have hb : (escDQ s.data).length + 1 ≤ (dQuoteChars s.data).length := by
    simp only [dQuoteChars, List.length_cons, List.length_append, List.length_nil]
    omega
  have hun := unescDQ_escDQ s.data (List.all_eq_true.mp h) (dQuoteChars s.data).length hb
  simp only [parseScalarChars]
  rw [if_neg (by simp [dQuoteChars])]
  rw [if_pos (by simp [dQuoteChars])]
  rw [show (dQuoteChars s.data).tail = escDQ s.data ++ ['"'] from by simp [dQuoteChars]]
  rw [hun]
  rfl

/-- Parsing inverts emission on the embedded scalar domain. -/
lemma parseScalar_emitScalar (v : Yaml) (h : scalarOk v = true) :
    parseScalarChars (emitScalarChars v) = some v := by
  cases v with
  | str s =>
    by_cases hps : plainSafe s.data = true
    · rw [show emitScalarChars (.str s) = s.data from by simp [emitScalarChars, hps]]
      exact plain_parse s hps
    · by_cases hpr : s.data.all printableAscii = true
      · rw [show emitScalarChars (.str s) = sQuoteChars s.data from by
          simp [emitScalarChars, hps, hpr]]
        exact quoted_parse s
      · have hdq : s.data.all dqOkChar = true := by
          simp only [scalarOk, strOk, Bool.and_eq_true, Bool.or_eq_true] at h
          rcases h.1 with (h1 | h1) | h1
          · exact absurd h1 hps
          · exact absurd h1 hpr
          · exact h1
        rw [show emitScalarChars (.str s) = dQuoteChars s.data from by
          simp [emitScalarChars, hps, hpr]]
        exact dquoted_parse s hdq
  | int n => exact intRepr_parse n
  | float d =>
    have he : 1 ≤ d.e := by simpa [scalarOk] using h
    exact decChars_parse d he
  | bool b => simp [scalarOk] at h
  | null => simp [scalarOk] at h
  | list xs => simp [scalarOk] at h
  | map kvs => simp [scalarOk] at h

/-! ### Line and document lemmas -/

lemma plainSafe_all (cs : List Char) (h : plainSafe cs = true) :
    cs.all allowedPlainChar = true := by
  simp only [plainSafe, Bool.and_eq_true] at h
  exact h.1.1.1.1.2

lemma escSQ_mem (cs : List Char) : ∀ c ∈ escSQ cs, c ∈ cs ∨ c = '\'' := by
  induction cs with
  | nil => intro c hc; simp [escSQ] at hc
  | cons x rest ih =>
    intro c hc
    by_cases hx : x = '\''
    · subst hx
      rw [escSQ_cons_quote] at hc
      simp only [List.mem_cons] at hc
      rcases hc with hc | hc | hc
      · right; exact hc
      · right; exact hc
      · rcases ih c hc with hm | hq
        · left; exact List.mem_cons_of_mem _ hm
        · right; exact hq
    · rw [escSQ_cons_other x rest hx] at hc
      simp only [List.mem_cons] at hc
      rcases hc with hc | hc
      · left; simp [hc]
      · rcases ih c hc with hm | hq
        · left; exact List.mem_cons_of_mem x hm
        · right; exact hq

lemma mem_sQuote (cs : List Char) (c : Char) (hc : c ∈ sQuoteChars cs) :
    c = '\'' ∨ c ∈ cs := by
  simp only [sQuoteChars, List.mem_cons, List.mem_append, List.mem_singleton] at hc
  rcases hc with hc | hc | hc | hc
  · exact Or.inl hc
  · rcases escSQ_mem cs c hc with hm | hq
    · exact Or.inr hm
    · exact Or.inl hq
  · exact Or.inl hc
  · simp at hc

lemma emitScalar_no_newline (v : Yaml) (h : scalarOk v = true) :
    ∀ c ∈ emitScalarChars v, c ≠ '\n' := by
  intro c hc
  cases v with
  | str s =>
    by_cases hps : plainSafe s.data = true
    · rw [show emitScalarChars (.str s) = s.data from by simp [emitScalarChars, hps]] at hc
      exact (allowedPlain_ne c ((List.all_eq_true.mp (plainSafe_all s.data hps)) c hc)).2.2.1
    · by_cases hpr : s.data.all printableAscii = true
      · rw [show emitScalarChars (.str s) = sQuoteChars s.data from by
          simp [emitScalarChars, hps, hpr]] at hc
        rcases mem_sQuote s.data c hc with hq | hm
        · subst hq; decide
        · exact printable_ne c ((List.all_eq_true.mp hpr) c hm)
      · have hdq : s.data.all dqOkChar = true := by
          simp only [scalarOk, strOk, Bool.and_eq_true, Bool.or_eq_true] at h
          rcases h.1 with (h1 | h1) | h1
          · exact absurd h1 hps
          · exact absurd h1 hpr
          · exact h1
        rw [show emitScalarChars (.str s) = dQuoteChars s.data from by
          simp [emitScalarChars, hps, hpr]] at hc
        simp only [dQuoteChars, List.mem_cons, List.mem_append, List.mem_singleton] at hc
        rcases hc with hc | hc | hc | hc
        · subst hc; decide
        · exact escDQ_no_newline s.data (List.all_eq_true.mp hdq) c hc
        · subst hc; decide
        · simp at hc
  | int n =>
    by_cases hn : n < 0
    · rw [show emitScalarChars (.int n) = '-' :: natReprAux (n.natAbs + 1) n.natAbs from by
        simp [emitScalarChars, intRepr, hn]] at hc
      simp only [List.mem_cons] at hc
      rcases hc with hc | hc
      · subst hc; decide
      · obtain ⟨_, hdig, _⟩ := natReprAux_spec (n.natAbs + 1) n.natAbs (by omega)
        exact (isDigit_ne c ((List.all_eq_true.mp hdig) c hc)).2.2.2.1
    · rw [show emitScalarChars (.int n) = natReprAux (n.natAbs + 1) n.natAbs from by
        simp [emitScalarChars, intRepr, hn, natRepr]] at hc
      obtain ⟨_, hdig, _⟩ := natReprAux_spec (n.natAbs + 1) n.natAbs (by omega)
      exact (isDigit_ne c ((List.all_eq_true.mp hdig) c hc)).2.2.2.1
  | float d =>
    obtain ⟨_, hdigA, _⟩ := natReprAux_spec (d.m / 10 ^ d.e + 1) (d.m / 10 ^ d.e) (by omega)
    obtain ⟨_, hdigB, _⟩ := natReprAux_spec (d.m % 10 ^ d.e + 1) (d.m % 10 ^ d.e) (by omega)
    simp only [emitScalarChars, decChars, List.mem_append, List.mem_cons] at hc
    rcases hc with hc | hc | hc
    · exact (isDigit_ne c ((List.all_eq_true.mp hdigA) c hc)).2.2.2.1
    · subst hc; decide
    · simp only [padZeros, List.mem_append] at hc
      rcases hc with hc | hc
      · rw [List.eq_of_mem_replicate hc]; decide
      · exact (isDigit_ne c ((List.all_eq_true.mp hdigB) c hc)).2.2.2.1
  | bool b => simp [scalarOk] at h
  | null => simp [scalarOk] at h
  | list xs => simp [scalarOk] at h
  | map kvs => simp [scalarOk] at h

lemma kvLine_no_newline (k : String) (v : Yaml) (hk : keyOk k = true)
    (hv : scalarOk v = true) : ∀ c ∈ kvLineChars k v, c ≠ '\n' := by
  intro c hc
  simp only [kvLineChars, List.mem_append, List.mem_cons] at hc
  rcases hc with hc | hc | hc | hc
  · have hall := plainSafe_all k.data (by
      simp only [keyOk, Bool.and_eq_true] at hk
      exact hk.1)
    exact (allowedPlain_ne c ((List.all_eq_true.mp hall) c hc)).2.2.1
  · subst hc; decide
  · subst hc; decide
  · exact emitScalar_no_newline v hv c hc

lemma splitOnChar_joinLines (L : List (List Char))
    (hnl : ∀ l ∈ L, ∀ c ∈ l, c ≠ '\n') :
    splitOnChar '\n' (joinLines L) = L ++ [[]] := by
  induction L with
  | nil => rfl
  | cons l rest ih =>
    have hjoin : joinLines (l :: rest) = l ++ '\n' :: joinLines rest := by
      simp [joinLines]
    rw [hjoin, splitOnChar_append_sep '\n' l _ (hnl l (List.mem_cons_self l rest)),
        ih (fun x hx => hnl x (List.mem_cons_of_mem l hx))]
    rfl

lemma parseLinesAux_nil (f : Nat) : parseLinesAux f [] = some [] := by
  cases f <;> rfl

lemma takeWhile_dropWhile_append {α : Type} (p : α → Bool) (a b : List α)
    (ha : ∀ x ∈ a, p x = true)
    (hb : ∀ y t, b = y :: t → p y = false) :
    (a ++ b).takeWhile p = a ∧ (a ++ b).dropWhile p = b := by
  induction a with
  | nil =>
    cases hbc : b with
    | nil => simp
    | cons y t =>
      have hy := hb y t hbc
      simp [List.takeWhile, List.dropWhile, hy]
  | cons x a' ih =>
    have hx := ha x (List.mem_cons_self x a')
    obtain ⟨ht, hd⟩ := ih (fun z hz => ha z (List.mem_cons_of_mem x hz))
    simp only [List.cons_append, List.takeWhile, List.dropWhile, hx, List.append_eq]
    exact ⟨by rw [ht], by rw [hd]⟩

/-- Parse the block lines of a list of items, given that each item's lines
have the `- `/`  ` shape and parse back to the item. -/
lemma parseLinesAux_blocks (lineF : List (String × Yaml) → List (List Char)) :
    ∀ (items : List (List (String × Yaml))) (f : Nat),
      (∀ kvs ∈ items, ∃ l0 conts, lineF kvs = ('-' :: ' ' :: l0) :: conts ∧
          (∀ lc ∈ conts, ∃ t, lc = ' ' :: ' ' :: t) ∧
          parseItemLines (l0 :: conts.map (fun x => x.drop 2)) = some kvs) →
      ((items.map lineF).flatten).length ≤ f →
      parseLinesAux f ((items.map lineF).flatten) = some items := by
  intro items
  induction items with
  | nil =>
    intro f h hf
    exact parseLinesAux_nil f
  | cons kvs rest ih =>
    intro f h hf
    obtain ⟨l0, conts, hline, hconts, hparse⟩ := h kvs (List.mem_cons_self _ _)
    have hflat : ((kvs :: rest).map lineF).flatten =
        ('-' :: ' ' :: l0) :: (conts ++ (rest.map lineF).flatten) := by
      simp [hline]
    rw [hflat] at hf ⊢
    obtain ⟨g, rfl⟩ : ∃ g, f = g + 1 := by
      refine ⟨f - 1, ?_⟩
      simp only [List.length_cons] at hf
      omega
    have hcp : ∀ lc ∈ conts, indentMark.isPrefixOf lc = true := by
      intro lc hlc
      obtain ⟨t, rfl⟩ := hconts lc hlc
      simp [indentMark, List.isPrefixOf]
    have hrp : ∀ y t, (rest.map lineF).flatten = y :: t →
        indentMark.isPrefixOf y = false := by
      intro y t hyt
      cases hr : rest with
      | nil => rw [hr] at hyt; simp at hyt
      | cons r0 rr =>
        obtain ⟨m0, mc, hm, _, _⟩ := h r0 (by rw [hr]; simp)
        rw [hr] at hyt
        simp only [List.map_cons, List.flatten_cons, hm, List.cons_append,
          List.cons.injEq] at hyt
        rw [← hyt.1]
        simp [indentMark, List.isPrefixOf]
    obtain ⟨htake, hdrop⟩ := takeWhile_dropWhile_append
      (fun x => indentMark.isPrefixOf x) conts ((rest.map lineF).flatten) hcp hrp
    simp only [parseLinesAux]
    rw [if_pos (by simp [dashMark, List.isPrefixOf])]
    rw [htake, hdrop]
    have hdropline : ('-' :: ' ' :: l0).drop 2 = l0 := rfl
    rw [hdropline, hparse]
    rw [ih g (fun x hx => h x (List.mem_cons_of_mem kvs hx)) (by
      simp only [List.length_cons, List.length_append] at hf ⊢
      omega)]

lemma splitKv_of_key (k : List Char) (rest : List Char)
    (hk : ∀ c ∈ k, c ≠ ':') :
    splitKvChars (k ++ ':' :: ' ' :: rest) = some (k, rest) := by
  induction k with
  | nil => simp [splitKvChars]
  | cons c kr ih =>
    have hrec := ih (fun x hx => hk x (List.mem_cons_of_mem c hx))
    simp only [List.cons_append, splitKvChars, List.append_eq]
    rw [if_neg (by
      intro hcon
      exact hk c (List.mem_cons_self c kr) hcon.1)]
    rw [hrec]
    rfl

lemma key_no_colon (k : String) (hk : keyOk k = true) : ∀ c ∈ k.data, c ≠ ':' := by
  intro c hc
  have hall := plainSafe_all k.data (by
    simp only [keyOk, Bool.and_eq_true] at hk
    exact hk.1)
  exact (allowedPlain_ne c ((List.all_eq_true.mp hall) c hc)).2.2.2

lemma parseKvLine_emit (k : String) (v : Yaml) (hk : keyOk k = true)
    (hv : scalarOk v = true) : parseKvLine (kvLineChars k v) = some (k, v) := by
  have hstep : parseKvLine (kvLineChars k v) =
      (parseScalarChars (emitScalarChars v)).map (fun y => ((⟨k.data⟩ : String), y)) := by
    simp only [parseKvLine, kvLineChars]
    rw [splitKv_of_key k.data (emitScalarChars v) (key_no_colon k hk)]
  rw [hstep, parseScalar_emitScalar v hv]
  rfl

lemma mapM_parseKv (kvs : List (String × Yaml))
    (h : ∀ kv ∈ kvs, keyOk kv.1 = true ∧ scalarOk kv.2 = true) :
    (kvs.map (fun kv => kvLineChars kv.1 kv.2)).mapM parseKvLine = some kvs := by
  induction kvs with
  | nil => rfl
  | cons kv rest ih =>
    obtain ⟨hk, hv⟩ := h kv (List.mem_cons_self _ _)
    simp only [List.map_cons, List.mapM_cons, parseKvLine_emit kv.1 kv.2 hk hv,
      ih (fun x hx => h x (List.mem_cons_of_mem kv hx))]
    rfl

lemma emitItem_blocks (kvs : List (String × Yaml)) (h : itemOk kvs = true) :
    ∃ l0 conts, emitItemLines kvs = ('-' :: ' ' :: l0) :: conts ∧
      (∀ lc ∈ conts, ∃ t, lc = ' ' :: ' ' :: t) ∧
      parseItemLines (l0 :: conts.map (fun x => x.drop 2)) = some kvs := by
  simp only [itemOk, Bool.and_eq_true] at h
  obtain ⟨hne, hall⟩ := h
  cases hkvs : kvs with
  | nil => rw [hkvs] at hne; simp at hne
  | cons kv rest =>
    rw [hkvs] at hall
    refine ⟨kvLineChars kv.1 kv.2,
      rest.map (fun x => ' ' :: ' ' :: kvLineChars x.1 x.2), ?_, ?_, ?_⟩
    · cases kv
      rfl
    · intro lc hlc
      simp only [List.mem_map] at hlc
      obtain ⟨x, _, hx⟩ := hlc
      exact ⟨kvLineChars x.1 x.2, hx.symm⟩
    · have hmap : (rest.map (fun x => ' ' :: ' ' :: kvLineChars x.1 x.2)).map
          (fun x => x.drop 2) = rest.map (fun x => kvLineChars x.1 x.2) := by
        rw [List.map_map]
        rfl
      rw [hmap]
      have hconv : (kvLineChars kv.1 kv.2 :: rest.map (fun x => kvLineChars x.1 x.2)) =
          ((kv :: rest).map (fun x => kvLineChars x.1 x.2)) := rfl
      show ((kv :: rest).map (fun x => kvLineChars x.1 x.2)).mapM parseKvLine =
        some (kv :: rest)
      apply mapM_parseKv
      intro x hx
      have := (List.all_eq_true.mp hall) x hx
      simp only [Bool.and_eq_true] at this
      exact this

lemma docLines_no_newline (items : List (List (String × Yaml)))
    (h : ∀ kvs ∈ items, itemOk kvs = true) :
    ∀ l ∈ emitDocLines items, ∀ c ∈ l, c ≠ '\n' := by
  intro l hl c hc
  simp only [emitDocLines, List.mem_flatten, List.mem_map] at hl
  obtain ⟨ls, ⟨kvs, hkvs, hls⟩, hlin⟩ := hl
  subst hls
  have hok := h kvs hkvs
  simp only [itemOk, Bool.and_eq_true] at hok
  obtain ⟨hne, hall⟩ := hok
  cases hkc : kvs with
  | nil => rw [hkc] at hne; simp at hne
  | cons kv rest =>
    rw [hkc] at hlin hall
    simp only [emitItemLines, List.mem_cons, List.mem_map] at hlin
    rcases hlin with hlin | ⟨x, hx, hlin⟩
    · subst hlin
      simp only [List.mem_cons] at hc
      rcases hc with hc | hc | hc
      · subst hc; decide
      · subst hc; decide
      · have hkok := (List.all_eq_true.mp hall) kv (List.mem_cons_self _ _)
        simp only [Bool.and_eq_true] at hkok
        exact kvLine_no_newline kv.1 kv.2 hkok.1 hkok.2 c hc
    · subst hlin
      simp only [List.mem_cons] at hc
      rcases hc with hc | hc | hc
      · subst hc; decide
      · subst hc; decide
      · have hkok := (List.all_eq_true.mp hall) x (List.mem_cons_of_mem kv hx)
        simp only [Bool.and_eq_true] at hkok
        exact kvLine_no_newline x.1 x.2 hkok.1 hkok.2 c hc

lemma parseDocText_of_lines (items : List (List (String × Yaml)))
    (L : List (List Char))
    (hnl : ∀ l ∈ L, ∀ c ∈ l, c ≠ '\n')
    (hparse : parseLinesAux L.length L = some items) :
    parseDocText ⟨joinLines L⟩ = some (items.map Yaml.map) := by
  have hsplit : splitOnChar '\n' (joinLines L) = L ++ [[]] :=
    splitOnChar_joinLines L hnl
  simp only [parseDocText]
  rw [hsplit, List.getLast?_concat, List.dropLast_concat, hparse]

/-- `yaml.safe_load` inverts `yaml.dump` for a nonempty block list of flat
mappings over the embedded scalar domain. -/
lemma docText_roundtrip (items : List (List (String × Yaml)))
    (h : ∀ kvs ∈ items, itemOk kvs = true) :
    parseDocText (docText items) = some (items.map Yaml.map) := by
  apply parseDocText_of_lines items _ (docLines_no_newline items h)
  exact parseLinesAux_blocks emitItemLines items _
    (fun kvs hkvs => emitItem_blocks kvs (h kvs hkvs)) le_rfl

/-! ### Registry emission: the `re.sub` unquoting and round trip -/

lemma strip_id (l : List Char) (h : ∀ c ∈ l, c ≠ '\'') : stripLineChars l = l := by
  simp only [stripLineChars, splitOnChar_of_no_sep '\'' l h]

lemma escSQ_id (cs : List Char) (h : ∀ c ∈ cs, c ≠ '\'') : escSQ cs = cs := by
  induction cs with
  | nil => rfl
  | cons c rest ih =>
    rw [escSQ_cons_other c rest (h c (List.mem_cons_self c rest)),
        ih (fun x hx => h x (List.mem_cons_of_mem c hx))]

lemma strip_include_line (A s : List Char)
    (hA : ∀ c ∈ A, c ≠ '\'') (hs : ∀ c ∈ s, c ≠ '\'')
    (hpre : ("!include ").data.isPrefixOf s = true)
    (hsuf : (".yaml").data.isSuffixOf s = true)
    (hlen : 15 ≤ s.length) :
    stripLineChars (A ++ '\'' :: (s ++ ['\''])) = A ++ s := by
  have hsplit : splitOnChar '\'' (A ++ '\'' :: (s ++ ['\''])) = [A, s, []] := by
    rw [splitOnChar_append_sep '\'' A _ hA]
    rw [show s ++ ['\''] = s ++ '\'' :: [] from rfl]
    rw [splitOnChar_append_sep '\'' s [] hs]
    rfl
  simp only [stripLineChars, hsplit]
  rw [if_pos (by simp [hpre, hsuf, hlen])]
  simp

lemma plainSafe_false_head (c : Char) (cs : List Char)
    (h : allowedPlainChar c = false) : plainSafe (c :: cs) = false := by
  simp [plainSafe, List.all_cons, h]

lemma mapM_parseKv_pointwise (g : (String × Yaml) → List Char) :
    ∀ l : List (String × Yaml), (∀ x ∈ l, parseKvLine (g x) = some x) →
      (l.map g).mapM parseKvLine = some l := by
  intro l
  induction l with
  | nil => intro h; rfl
  | cons x rest ih =>
    intro h
    simp only [List.map_cons, List.mapM_cons, h x (List.mem_cons_self _ _),
      ih (fun y hy => h y (List.mem_cons_of_mem x hy))]
    rfl

/-- For every registry-entry field, the stripped output line is the two-char
block prefix followed by a body that parses back to the field; the `sensors`
field's body is the unquoted `sensors: !include <path>` form. -/
lemma strip_kv_parse (pre : List Char) (hpre : ∀ c ∈ pre, c ≠ '\'')
    (k : String) (v : Yaml) (hk : keyOk k = true) (hv : regKvOk k v = true) :
    ∃ body, stripLineChars (pre ++ kvLineChars k v) = pre ++ body ∧
      parseKvLine body = some (k, v) ∧ (∀ c ∈ body, c ≠ '\n') ∧
      (k = "sensors" → ∀ s : String, v = .str s → body = k.data ++ ':' :: ' ' :: s.data) := by
  have hknq : ∀ c ∈ k.data, c ≠ '\'' := by
    intro c hc
    have hall := plainSafe_all k.data (by
      simp only [keyOk, Bool.and_eq_true] at hk
      exact hk.1)
    exact (allowedPlain_ne c ((List.all_eq_true.mp hall) c hc)).2.1
  by_cases hks : k = "sensors"
  · subst hks
    simp only [regKvOk, if_pos rfl] at hv
    cases v with
    | str s =>
      have hv2 : (("!include ").data.isPrefixOf s.data && pathOk (s.data.drop 9)) = true := hv
      rw [Bool.and_eq_true] at hv2
      obtain ⟨hinc, hp0⟩ := hv2
      obtain ⟨p, hpdec⟩ : ∃ p, s.data = ("!include ").data ++ p := by
        obtain ⟨t, ht⟩ := List.isPrefixOf_iff_prefix.mp hinc
        exact ⟨t, ht.symm⟩
      have hdrop9 : s.data.drop 9 = p := by
        rw [hpdec]
        exact List.drop_left ("!include ").data p
      rw [hdrop9] at hp0
      have hp : (((((p.all printableAscii && !p.contains '\'') &&
          (".yaml").data.isSuffixOf p) && decide (6 ≤ p.length)) &&
          decide (p.length ≤ 40)) && decide (p.head? ≠ some ' ')) = true := hp0
      rw [Bool.and_eq_true, Bool.and_eq_true, Bool.and_eq_true, Bool.and_eq_true,
        Bool.and_eq_true] at hp
      have hpnq : ∀ c ∈ p, c ≠ '\'' := by
        intro c hc hcq
        subst hcq
        have hcont : ('\'' ∈ p) → False := by simpa using hp.1.1.1.1.2
        exact hcont hc
      have hsnq : ∀ c ∈ s.data, c ≠ '\'' := by
        intro c hc
        rw [hpdec] at hc
        rcases List.mem_append.mp hc with hm | hm
        · intro he; subst he; revert hm; decide
        · exact hpnq c hm
      have hppr : ∀ c ∈ p, printableAscii c = true := by
        intro c hc
        exact (List.all_eq_true.mp hp.1.1.1.1.1) c hc
      have hplen : 6 ≤ p.length := by
        have := hp.1.1.2
        simpa using this
      have hphead : ∀ q qs, p = q :: qs → q ≠ ' ' := by
        intro q qs hq hcon
        have h2 := of_decide_eq_true hp.2
        rw [hq, hcon] at h2
        simp at h2
      have hpsfalse : plainSafe s.data = false := by
        rw [hpdec]
        exact plainSafe_false_head '!' _ (by decide)
      have hprS : s.data.all printableAscii = true := by
        rw [hpdec]
        simp only [List.all_append, Bool.and_eq_true]
        exact ⟨by decide, hp.1.1.1.1.1⟩
      have hemit : emitScalarChars (.str s) = '\'' :: (s.data ++ ['\'']) := by
        simp only [emitScalarChars, hpsfalse, Bool.false_eq_true, if_false, hprS,
          eq_self_iff_true, if_true, sQuoteChars, escSQ_id s.data hsnq]
      have hline : pre ++ kvLineChars "sensors" (.str s) =
          (pre ++ ("sensors").data ++ [':', ' ']) ++ '\'' :: (s.data ++ ['\'']) := by
        simp [kvLineChars, hemit, List.append_assoc]
      have hAnq : ∀ c ∈ pre ++ ("sensors").data ++ [':', ' '], c ≠ '\'' := by
        intro c hc
        rcases List.mem_append.mp hc with hc | hc
        · rcases List.mem_append.mp hc with hc | hc
          · exact hpre c hc
          · exact hknq c hc
        · simp only [List.mem_cons, List.not_mem_nil, or_false] at hc
          rcases hc with hc | hc
          · subst hc; decide
          · subst hc; decide
      have hsufS : (".yaml").data.isSuffixOf s.data = true := by
        rw [List.isSuffixOf_iff_suffix]
        obtain ⟨t, ht⟩ := List.isSuffixOf_iff_suffix.mp hp.1.1.1.2
        exact ⟨("!include ").data ++ t, by rw [hpdec, ← ht, List.append_assoc]⟩
      have hlenS : 15 ≤ s.data.length := by
        rw [hpdec, List.length_append]
        have h9 : ("!include ").data.length = 9 := rfl
        omega
      refine ⟨("sensors").data ++ ':' :: ' ' :: s.data, ?_, ?_, ?_, ?_⟩
      · rw [hline, strip_include_line _ _ hAnq hsnq hinc hsufS hlenS]
        simp [List.append_assoc]
      · have hknc : ∀ c ∈ ("sensors" : String).data, c ≠ ':' := key_no_colon _ hk
        simp only [parseKvLine]
        rw [splitKv_of_key _ _ hknc]
        have hval : parseScalarChars s.data = some (.str s) := by
          obtain ⟨q, qs, hq⟩ : ∃ q qs, p = q :: qs := by
            cases hp0 : p with
            | nil => rw [hp0] at hplen; simp at hplen
            | cons q qs => exact ⟨q, qs, rfl⟩
          simp only [parseScalarChars]
          rw [if_neg (by
            rw [hpdec]
            simp)]
          rw [if_neg (by
            rw [hpdec]
            simp)]
          rw [if_pos (by rw [hpdec]; exact List.isPrefixOf_iff_prefix.mpr ⟨p, rfl⟩)]
          rw [hdrop9, hq]
          rw [show List.dropWhile (fun c => decide (c = ' ')) (q :: qs) = q :: qs from by
            simp [List.dropWhile, hphead q qs hq]]
          rw [← hq, ← hpdec]
        show Option.map (fun y => (String.mk ("sensors").data, y)) (parseScalarChars s.data) =
          some ("sensors", Yaml.str s)
        rw [hval]
        rfl
      · intro c hc
        rcases List.mem_append.mp hc with hc | hc
        · intro he
          subst he
          revert hc
          decide
        · simp only [List.mem_cons] at hc
          rcases hc with hc | hc | hc
          · subst hc; decide
          · subst hc; decide
          · rw [hpdec] at hc
            rcases List.mem_append.mp hc with hm | hm
            · intro he; subst he; revert hm; decide
            · exact printable_ne c (hppr c hm)
      · intro _ s2 hs2
        cases hs2
        rfl
    | int n => simp at hv
    | float d => simp at hv
    | bool b => simp at hv
    | null => simp at hv
    | list xs => simp at hv
    | map kvs => simp at hv
  · simp only [regKvOk, if_neg hks] at hv
    have hsc : scalarOk v = true := by
      cases v with
      | str s =>
        simp only [Bool.and_eq_true] at hv
        simp only [scalarOk, strOk, Bool.and_eq_true, Bool.or_eq_true]
        exact ⟨Or.inl (Or.inl hv.1), by simpa using hv.2⟩
      | int n => rfl
      | float d => simp at hv
      | bool b => simp at hv
      | null => simp at hv
      | list xs => simp at hv
      | map kvs => simp at hv
    have hnq : ∀ c ∈ pre ++ kvLineChars k v, c ≠ '\'' := by
      intro c hc
      rcases List.mem_append.mp hc with hc | hc
      · exact hpre c hc
      · simp only [kvLineChars, List.mem_append, List.mem_cons] at hc
        rcases hc with hc | hc | hc | hc
        · exact hknq c hc
        · subst hc; decide
        · subst hc; decide
        · cases v with
          | str s =>
            simp only [Bool.and_eq_true] at hv
            rw [show emitScalarChars (.str s) = s.data from by
              simp [emitScalarChars, hv.1]] at hc
            exact (allowedPlain_ne c
              ((List.all_eq_true.mp (plainSafe_all s.data hv.1)) c hc)).2.1
          | int n =>
            by_cases hn : n < 0
            · rw [show emitScalarChars (.int n) =
                  '-' :: natReprAux (n.natAbs + 1) n.natAbs from by
                simp [emitScalarChars, intRepr, hn]] at hc
              simp only [List.mem_cons] at hc
              rcases hc with hc | hc
              · subst hc; decide
              · obtain ⟨_, hdig, _⟩ := natReprAux_spec (n.natAbs + 1) n.natAbs (by omega)
                exact (isDigit_ne c ((List.all_eq_true.mp hdig) c hc)).2.1
            · rw [show emitScalarChars (.int n) = natReprAux (n.natAbs + 1) n.natAbs from by
                simp [emitScalarChars, intRepr, hn, natRepr]] at hc
              obtain ⟨_, hdig, _⟩ := natReprAux_spec (n.natAbs + 1) n.natAbs (by omega)
              exact (isDigit_ne c ((List.all_eq_true.mp hdig) c hc)).2.1
          | float d => simp at hv
          | bool b => simp at hv
          | null => simp at hv
          | list xs => simp at hv
          | map kvs => simp at hv
    refine ⟨kvLineChars k v, ?_, parseKvLine_emit k v hk hsc, ?_, ?_⟩
    · rw [strip_id _ hnq]
    · exact fun c hc => kvLine_no_newline k v hk hsc c hc
    · intro hcon
      exact absurd hcon hks

lemma mapM_parseKv_cons (b : List Char) (x : String × Yaml) (l : List (List Char))
    (xs : List (String × Yaml)) (hb : parseKvLine b = some x)
    (hl : l.mapM parseKvLine = some xs) :
    (b :: l).mapM parseKvLine = some (x :: xs) := by
  simp only [List.mapM_cons, hb, hl]
  rfl

/-- The stripped output lines of one registry entry form a well-shaped
block that parses back to the entry. -/
lemma regItem_blocks (kvs : List (String × Yaml)) (h : regEntryOk kvs = true) :
    ∃ l0 conts, (emitItemLines kvs).map stripLineChars = ('-' :: ' ' :: l0) :: conts ∧
      (∀ lc ∈ conts, ∃ t, lc = ' ' :: ' ' :: t) ∧
      parseItemLines (l0 :: conts.map (fun x => x.drop 2)) = some kvs := by
  simp only [regEntryOk, Bool.and_eq_true] at h
  obtain ⟨hne, hall⟩ := h
  cases hkvs : kvs with
  | nil => rw [hkvs] at hne; simp at hne
  | cons kv rest =>
    rw [hkvs] at hall
    obtain ⟨k, v⟩ := kv
    have hkv := (List.all_eq_true.mp hall) (k, v) (List.mem_cons_self _ _)
    simp only [Bool.and_eq_true] at hkv
    obtain ⟨body0, hstrip0, hparse0, _, _⟩ :=
      strip_kv_parse ['-', ' '] (by decide) k v hkv.1 hkv.2
    have hrest : ∀ x ∈ rest, ∃ body,
        stripLineChars (' ' :: ' ' :: kvLineChars x.1 x.2) = ' ' :: ' ' :: body ∧
        parseKvLine body = some (x.1, x.2) := by
      intro x hx
      have hxok := (List.all_eq_true.mp hall) x (List.mem_cons_of_mem (k, v) hx)
      simp only [Bool.and_eq_true] at hxok
      obtain ⟨body, hstrip, hparse, _, _⟩ :=
        strip_kv_parse [' ', ' '] (by decide) x.1 x.2 hxok.1 hxok.2
      exact ⟨body, by simpa using hstrip, hparse⟩
    refine ⟨body0,
      rest.map (fun x => stripLineChars (' ' :: ' ' :: kvLineChars x.1 x.2)), ?_, ?_, ?_⟩
    · simp only [emitItemLines, List.map_cons, List.map_map]
      have hs0 : stripLineChars ('-' :: ' ' :: kvLineChars k v) = '-' :: ' ' :: body0 := by
        simpa using hstrip0
      rw [hs0]
      rfl
    · intro lc hlc
      simp only [List.mem_map] at hlc
      obtain ⟨x, hx, hlx⟩ := hlc
      obtain ⟨body, hstrip, _⟩ := hrest x hx
      exact ⟨body, by rw [← hlx, hstrip]⟩
    · have hmap : (rest.map (fun x =>
          stripLineChars (' ' :: ' ' :: kvLineChars x.1 x.2))).map (fun x => x.drop 2) =
          rest.map (fun x =>
            (stripLineChars (' ' :: ' ' :: kvLineChars x.1 x.2)).drop 2) := by
        rw [List.map_map]
        rfl
      rw [hmap]
      have hpt : ∀ x ∈ rest, parseKvLine
          ((stripLineChars (' ' :: ' ' :: kvLineChars x.1 x.2)).drop 2) = some x := by
        intro x hx
        obtain ⟨body, hstrip, hparse⟩ := hrest x hx
        rw [hstrip]
        exact hparse
      exact mapM_parseKv_cons body0 (k, v) _ rest hparse0
        (mapM_parseKv_pointwise _ rest hpt)

lemma registryLines_no_newline (items : List (List (String × Yaml)))
    (h : ∀ kvs ∈ items, regEntryOk kvs = true) :
    ∀ l ∈ registryLines items, ∀ c ∈ l, c ≠ '\n' := by
  intro l hl c hc
  simp only [registryLines, List.mem_map] at hl
  obtain ⟨l1, hl1, hls⟩ := hl
  rw [← hls] at hc
  simp only [emitDocLines, List.mem_flatten, List.mem_map] at hl1
  obtain ⟨ls, ⟨kvs, hkvs, hlseq⟩, hlin⟩ := hl1
  subst hlseq
  have hok := h kvs hkvs
  simp only [regEntryOk, Bool.and_eq_true] at hok
  obtain ⟨hne, hall⟩ := hok
  cases hkc : kvs with
  | nil => rw [hkc] at hne; simp at hne
  | cons kv rest =>
    rw [hkc] at hlin hall
    obtain ⟨k, v⟩ := kv
    simp only [emitItemLines, List.mem_cons, List.mem_map] at hlin
    rcases hlin with hlin | ⟨x, hx, hlin⟩
    · have hkok := (List.all_eq_true.mp hall) (k, v) (List.mem_cons_self _ _)
      simp only [Bool.and_eq_true] at hkok
      obtain ⟨body, hstrip, _, hnl, _⟩ :=
        strip_kv_parse ['-', ' '] (by decide) k v hkok.1 hkok.2
      rw [hlin] at hc
      rw [show stripLineChars ('-' :: ' ' :: kvLineChars k v) = '-' :: ' ' :: body from by
        simpa using hstrip] at hc
      simp only [List.mem_cons] at hc
      rcases hc with hc | hc | hc
      · subst hc; decide
      · subst hc; decide
      · exact hnl c hc
    · have hkok := (List.all_eq_true.mp hall) x (List.mem_cons_of_mem (k, v) hx)
      simp only [Bool.and_eq_true] at hkok
      obtain ⟨body, hstrip, _, hnl, _⟩ :=
        strip_kv_parse [' ', ' '] (by decide) x.1 x.2 hkok.1 hkok.2
      rw [← hlin] at hc
      rw [show stripLineChars (' ' :: ' ' :: kvLineChars x.1 x.2) = ' ' :: ' ' :: body from by
        simpa using hstrip] at hc
      simp only [List.mem_cons] at hc
      rcases hc with hc | hc | hc
      · subst hc; decide
      · subst hc; decide
      · exact hnl c hc

/-- `yaml.safe_load` (with the `!include` constructor) inverts the
registry dump followed by the quote-stripping `re.sub`. -/
lemma registryText_roundtrip (items : List (List (String × Yaml)))
    (h : ∀ kvs ∈ items, regEntryOk kvs = true) :
    parseDocText (registryText items) = some (items.map Yaml.map) := by
  have hmap : registryLines items =
      (items.map (fun kvs => (emitItemLines kvs).map stripLineChars)).flatten := by
    simp only [registryLines, emitDocLines, List.map_flatten, List.map_map]
    rfl
  have heq : registryText items =
      ⟨joinLines ((items.map (fun kvs => (emitItemLines kvs).map stripLineChars)).flatten)⟩ := by
    simp only [registryText, hmap]
  rw [heq]
  apply parseDocText_of_lines
  · intro l hl
    exact registryLines_no_newline items h l (by rw [hmap]; exact hl)
  · exact parseLinesAux_blocks _ items _
      (fun kvs hk => regItem_blocks kvs (h kvs hk)) le_rfl

lemma kvLine_mem (kvs : List (String × Yaml)) (k : String) (v : Yaml)
    (hm : (k, v) ∈ kvs) :
    ('-' :: ' ' :: kvLineChars k v) ∈ emitItemLines kvs ∨
    (' ' :: ' ' :: kvLineChars k v) ∈ emitItemLines kvs := by
  cases kvs with
  | nil => simp at hm
  | cons kv0 rest =>
    obtain ⟨k0, v0⟩ := kv0
    rcases List.mem_cons.mp hm with hm | hm
    · left
      injection hm with h1 h2
      subst h1
      subst h2
      exact List.mem_cons_self _ _
    · right
      simp only [emitItemLines, List.mem_cons, List.mem_map]
      exact Or.inr ⟨(k, v), hm, rfl⟩

/-- Every entry's `sensors` value reaches the registry file as an
unquoted `sensors: !include <path>` line. -/
lemma sensors_line_unquoted (items : List (List (String × Yaml)))
    (h : ∀ kvs ∈ items, regEntryOk kvs = true)
    (e : List (String × Yaml)) (he : e ∈ items) (s : String)
    (hmem : ("sensors", Yaml.str s) ∈ e) :
    ∃ l ∈ registryLines items, l.drop 2 = ("sensors: ").data ++ s.data := by
  have hok := h e he
  simp only [regEntryOk, Bool.and_eq_true] at hok
  have hkv := (List.all_eq_true.mp hok.2) ("sensors", Yaml.str s) hmem
  simp only [Bool.and_eq_true] at hkv
  rcases kvLine_mem e "sensors" (Yaml.str s) hmem with hl | hl
  · obtain ⟨body, hstrip, _, _, hsens⟩ :=
      strip_kv_parse ['-', ' '] (by decide) "sensors" (Yaml.str s) hkv.1 hkv.2
    refine ⟨stripLineChars ('-' :: ' ' :: kvLineChars "sensors" (Yaml.str s)), ?_, ?_⟩
    · exact List.mem_map_of_mem stripLineChars
        (List.mem_flatten.mpr ⟨emitItemLines e, List.mem_map_of_mem emitItemLines he, hl⟩)
    · rw [show stripLineChars ('-' :: ' ' :: kvLineChars "sensors" (Yaml.str s)) =
          '-' :: ' ' :: body from by simpa using hstrip]
      rw [hsens rfl s rfl]
      rfl
  · obtain ⟨body, hstrip, _, _, hsens⟩ :=
      strip_kv_parse [' ', ' '] (by decide) "sensors" (Yaml.str s) hkv.1 hkv.2
    refine ⟨stripLineChars (' ' :: ' ' :: kvLineChars "sensors" (Yaml.str s)), ?_, ?_⟩
    · exact List.mem_map_of_mem stripLineChars
        (List.mem_flatten.mpr ⟨emitItemLines e, List.mem_map_of_mem emitItemLines he, hl⟩)
    · rw [show stripLineChars (' ' :: ' ' :: kvLineChars "sensors" (Yaml.str s)) =
          ' ' :: ' ' :: body from by simpa using hstrip]
      rw [hsens rfl s rfl]
      rfl

lemma lookup_scale_toDict (r : ModbusRegister) :
    lookupKvs "scale" r.toDict = r.scale.map Yaml.float := by
  obtain ⟨n, sl, a, dt, sc, u, si, stc⟩ := r
  cases sc <;> cases u <;> cases si <;> cases stc <;>
    simp [ModbusRegister.toDict, lookupKvs]

lemma lookup_unit_toDict (r : ModbusRegister) :
    lookupKvs "unit_of_measurement" r.toDict = r.unit_of_measurement.map Yaml.str := by
  obtain ⟨n, sl, a, dt, sc, u, si, stc⟩ := r
  cases sc <;> cases u <;> cases si <;> cases stc <;>
    simp [ModbusRegister.toDict, lookupKvs]

lemma lookup_scan_toDict (r : ModbusRegister) :
    lookupKvs "scan_interval" r.toDict = r.scan_interval.map Yaml.int := by
  obtain ⟨n, sl, a, dt, sc, u, si, stc⟩ := r
  cases sc <;> cases u <;> cases si <;> cases stc <;>
    simp [ModbusRegister.toDict, lookupKvs]

lemma lookup_state_toDict (r : ModbusRegister) :
    lookupKvs "state_class" r.toDict = r.state_class.map Yaml.str := by
  obtain ⟨n, sl, a, dt, sc, u, si, stc⟩ := r
  cases sc <;> cases u <;> cases si <;> cases stc <;>
    simp [ModbusRegister.toDict, lookupKvs]

/-- C8: the per-device sensor file round-trips: `yaml.safe_load` of the
dumped register list reproduces the same list of mappings, optional unset
fields are absent from their mapping rather than present, and no value in
any mapping is null. -/
theorem sensor_file_roundtrip (regs : List ModbusRegister)
    (_hne : regs ≠ [])
    (hok : ∀ r ∈ regs, itemOk r.toDict = true) :
    parseDocText (docText (regs.map ModbusRegister.toDict)) =
      some ((regs.map ModbusRegister.toDict).map Yaml.map) ∧
    (∀ r ∈ regs,
      (r.scale = none → lookupKvs "scale" r.toDict = none) ∧
      (r.unit_of_measurement = none → lookupKvs "unit_of_measurement" r.toDict = none) ∧
      (r.scan_interval = none → lookupKvs "scan_interval" r.toDict = none) ∧
      (r.state_class = none → lookupKvs "state_class" r.toDict = none)) ∧
    (∀ r ∈ regs, ∀ kv ∈ r.toDict, kv.2 ≠ Yaml.null) := by
  refine ⟨?_, ?_, ?_⟩
  · apply docText_roundtrip
    intro kvs hkvs
    simp only [List.mem_map] at hkvs
    obtain ⟨r, hr, hrd⟩ := hkvs
    rw [← hrd]
    exact hok r hr
  · intro r hr
    refine ⟨?_, ?_, ?_, ?_⟩
    · intro h; rw [lookup_scale_toDict, h]; rfl
    · intro h; rw [lookup_unit_toDict, h]; rfl
    · intro h; rw [lookup_scan_toDict, h]; rfl
    · intro h; rw [lookup_state_toDict, h]; rfl
  · intro r hr kv hkv hnull
    have hitem := hok r hr
    simp only [itemOk, Bool.and_eq_true] at hitem
    have hsc := (List.all_eq_true.mp hitem.2) kv hkv
    simp only [Bool.and_eq_true] at hsc
    rw [hnull] at hsc
    exact absurd hsc.2 (by decide)

theorem sensor_file_roundtrip_witness :
    (sampleRegs ≠ [] ∧ ∀ r ∈ sampleRegs, itemOk r.toDict = true) ∧
    (parseDocText (docText (sampleRegs.map ModbusRegister.toDict)) =
      some ((sampleRegs.map ModbusRegister.toDict).map Yaml.map) ∧
    (∀ r ∈ sampleRegs,
      (r.scale = none → lookupKvs "scale" r.toDict = none) ∧
      (r.unit_of_measurement = none → lookupKvs "unit_of_measurement" r.toDict = none) ∧
      (r.scan_interval = none → lookupKvs "scan_interval" r.toDict = none) ∧
      (r.state_class = none → lookupKvs "state_class" r.toDict = none)) ∧
    (∀ r ∈ sampleRegs, ∀ kv ∈ r.toDict, kv.2 ≠ Yaml.null)) :=
  ⟨⟨List.length_pos.mp (by decide), by decide⟩,
    sensor_file_roundtrip sampleRegs (List.length_pos.mp (by decide)) (by decide)⟩

/-- C10: the registry file round-trips across runs: `yaml.safe_load` (with
the `!include` constructor, which rebuilds the literal `!include <path>`
string) of the file the tool wrote yields exactly the entry list that was
written, and the load shape-sniff accepts it as a bare list. -/
theorem registry_file_roundtrip (entries : List (List (String × Yaml)))
    (_hne : entries ≠ [])
    (hok : ∀ e ∈ entries, regEntryOk e = true) :
    parseDocText (registryText entries) = some (entries.map Yaml.map) ∧
    loadRegistry (some (Yaml.list (entries.map Yaml.map))) =
      (entries.map Yaml.map, false) :=
  ⟨registryText_roundtrip entries hok, rfl⟩

theorem registry_file_roundtrip_witness :
    (sampleEntries ≠ [] ∧ ∀ e ∈ sampleEntries, regEntryOk e = true) ∧
    (parseDocText (registryText sampleEntries) = some (sampleEntries.map Yaml.map) ∧
    loadRegistry (some (Yaml.list (sampleEntries.map Yaml.map))) =
      (sampleEntries.map Yaml.map, false)) :=
  ⟨⟨by simp [sampleEntries], by decide⟩,
    registry_file_roundtrip sampleEntries (by simp [sampleEntries]) (by decide)⟩

/-- C2: in the rewritten registry file every entry's `sensors` value is
emitted unquoted: the file has a line whose body after the block prefix is
literally `sensors: ` followed by the raw `!include <path>` marker, and the
whole output still parses as a plain list of the entries. -/
theorem include_emitted_unquoted (entries : List (List (String × Yaml)))
    (_hne : entries ≠ [])
    (hok : ∀ e ∈ entries, regEntryOk e = true) :
    (∀ e ∈ entries, ∀ s : String, ("sensors", Yaml.str s) ∈ e →
      ∃ l ∈ registryLines entries,
        l.drop 2 = ("sensors: ").data ++ s.data ∧
        ("!include ").data.isPrefixOf s.data = true) ∧
    parseDocText (registryText entries) = some (entries.map Yaml.map) := by
  constructor
  · intro e he s hmem
    obtain ⟨l, hl, hdrop⟩ := sensors_line_unquoted entries hok e he s hmem
    refine ⟨l, hl, hdrop, ?_⟩
    have hoke := hok e he
    simp only [regEntryOk, Bool.and_eq_true] at hoke
    have hkv := (List.all_eq_true.mp hoke.2) ("sensors", Yaml.str s) hmem
    simp only [Bool.and_eq_true] at hkv
    have hsv : (("!include ").data.isPrefixOf s.data && pathOk (s.data.drop 9)) = true :=
      hkv.2
    exact (Bool.and_eq_true _ _ |>.mp hsv).1
  · exact registryText_roundtrip entries hok

theorem include_emitted_unquoted_witness :
    (sampleEntries ≠ [] ∧ ∀ e ∈ sampleEntries, regEntryOk e = true) ∧
    ((∀ e ∈ sampleEntries, ∀ s : String, ("sensors", Yaml.str s) ∈ e →
      ∃ l ∈ registryLines sampleEntries,
        l.drop 2 = ("sensors: ").data ++ s.data ∧
        ("!include ").data.isPrefixOf s.data = true) ∧
    parseDocText (registryText sampleEntries) = some (sampleEntries.map Yaml.map)) :=
  ⟨⟨by simp [sampleEntries], by decide⟩,
    include_emitted_unquoted sampleEntries (by simp [sampleEntries]) (by decide)⟩

end Chisage
